import Mathlib

/-!
# synoclient: the request / session / response pipeline of `client.go`

A shallow embedding of `src/synoclient/client.go` and the properties of it that the
specification states.

Conventions of the embedding.

* A Go `string` and a Go `[]byte` are sequences of bytes. Both are modelled by `String`, each
  character standing for one byte (code points 0 to 255; characters from 256 on are not bytes
  and never occur in a Go string). The conversions `string(body)` and `[]byte(data)` copy the
  bytes unchanged and are the identity here.
* A Go `map[string]string` that is ranged over is a list of key/value pairs in the order
  the `range` loop happens to visit them, with pairwise distinct keys.
* `url.Values` (a `map[string][]string`) is an association list with unique keys.
* A value of type `interface{}` filled in by `json.Unmarshal` is a `JSON` tree; numbers are
  `float64` values, kept as the exact rational they denote.
* `time.Duration` and `int` are 64-bit signed integers, kept as `Int` with explicit wrapping.
* Of the standard library, `net/url` and `http.NewRequest` are embedded as far as client.go
  reaches them: `URL.String`, `Values.Encode`, `url.Parse`, `URL.Query`. What `json.Unmarshal`
  and the authority parser of `net/url` answer is a parameter (`Lib`), and so is what one HTTP
  round trip answers (`World`).
* A function that can panic returns an `Outcome`.
-/

namespace Synoclient

/-! ## Data model -/

/-- The struct `Client` (client.go:12-20). `Timeout` is a `time.Duration`, an int64 count. -/
structure Client where
  Host : String
  Scheme : String
  Username : String
  Password : String
  Session : String
  Timeout : Int
  Sid : String
  deriving DecidableEq, Repr

/-- Reasons for which `http.NewRequest` fails: the method is not a token, or `url.Parse`
rejects the text (a control character, a colon before any scheme character, a colon in the
first segment of a relative path, a malformed `%` escape, an authority that the library
refuses). -/
inductive RequestError where
  | invalidMethod (method : String)
  | controlCharacter
  | missingScheme
  | firstSegmentColon
  | invalidEscape (text : String)
  | invalidAuthority (text : String)
  deriving DecidableEq, Repr

/-- Modelled from the spec: the type declarations of `GenericError` and `SynoError` are not in
client.go, which only builds them as `&GenericError{desc: ...}` and `&SynoError{code: ...}`.
Following the error taxonomy of the specification, a generic error carries a description and
no code, a domain error carries a numeric code. The two remaining constructors are the error
values that `json.Unmarshal` and `http.NewRequest` hand back and that client.go returns
unchanged. -/
inductive Error where
  | generic (desc : String)
  | syno (code : Int)
  | decode (text : String)
  | construction (reason : RequestError)
  deriving DecidableEq, Repr

/-- The reasons for which client.go can panic: a failed type assertion `x.(T)` and the explicit
`panic("Could not read response body")` of `Get`. -/
inductive Panic where
  | typeAssertion
  | readBody
  deriving DecidableEq, Repr

/-- Result of a Go function that either returns a value or panics. -/
inductive Outcome (α : Type) where
  | ret (a : α)
  | panic (p : Panic)
  deriving DecidableEq, Repr

/-- A decoded `interface{}` as `json.Unmarshal` produces it: `nil`, `bool`, `float64`,
`string`, `[]interface{}` or `map[string]interface{}`. -/
inductive JSON where
  | null
  | bool (b : Bool)
  | number (f : ℚ)
  | string (s : String)
  | array (xs : List JSON)
  | object (m : List (String × JSON))

/-- Type assertion `x.(map[string]interface{})`; `none` is the panic. -/
def JSON.asMap : JSON → Option (List (String × JSON))
  | .object m => some m
  | _ => none

/-- Type assertion `x.(bool)`. -/
def JSON.asBool : JSON → Option Bool
  | .bool b => some b
  | _ => none

/-- Type assertion `x.(float64)`. -/
def JSON.asFloat64 : JSON → Option ℚ
  | .number f => some f
  | _ => none

/-- Type assertion `x.(string)`. -/
def JSON.asString : JSON → Option String
  | .string s => some s
  | _ => none

/-- Map index expression `m[k]` on a `map[string]interface{}`: the nil interface when the key
is absent. -/
def index (m : List (String × JSON)) (k : String) : JSON :=
  (m.lookup k).getD JSON.null

/-! ## Package `strings` -/

/-- The call `strings.Cut(s, sep)` for a one-byte `sep`: the text before the first `sep` and
the text after it; all of `s` and the empty text when `s` has no `sep`. -/
def cut (sep : Char) : List Char → List Char × List Char
  | [] => ([], [])
  | c :: cs => if c = sep then ([], cs) else (c :: (cut sep cs).1, (cut sep cs).2)

/-- The pieces of `s` between the occurrences of the byte `sep`, as the loop
`key, query, _ = strings.Cut(query, sep)` meets them. -/
def split (sep : Char) : List Char → List (List Char)
  | [] => [[]]
  | c :: cs =>
    if c = sep then [] :: split sep cs
    else
      match split sep cs with
      | [] => [[c]]
      | p :: ps => (c :: p) :: ps

/-- The pieces written one after the other with the byte `sep` between them. -/
def join (sep : Char) : List (List Char) → List Char
  | [] => []
  | [p] => p
  | p :: q :: ps => p ++ sep :: join sep (q :: ps)

/-- The call `strings.LastIndex(s, sep)` for a one-byte `sep`; `-1` when `s` has no `sep`. -/
def lastIndex (sep : Char) (s : List Char) : Int :=
  if sep ∈ s then ((s.length - 1 - s.reverse.indexOf sep : Nat) : Int) else -1

/-! ## Package `net/url`: escaping -/

/-- The escaping modes of `net/url` that the embedded functions use. -/
inductive Encoding where
  | encodePath
  | encodeHost
  | encodeQueryComponent
  | encodeFragment
  deriving DecidableEq, Repr

/-- An ASCII letter or digit. -/
def isAlnum (c : Char) : Bool :=
  ('a' ≤ c && c ≤ 'z') || ('A' ≤ c && c ≤ 'Z') || ('0' ≤ c && c ≤ '9')

/-- The reserved characters of RFC 3986 that `shouldEscape` treats by mode. -/
def reservedChars : List Char :=
  ['$', '&', '+', ',', '/', ':', ';', '=', '?', '@']

/-- The function `shouldEscape` of `net/url`, in the four modes above. The characters with
codes 39 and 34 are the apostrophe and the double quote. -/
def shouldEscape (c : Char) (mode : Encoding) : Bool :=
  if isAlnum c then false
  else if mode = .encodeHost ∧
      c ∈ ['!', '$', '&', Char.ofNat 39, '(', ')', '*', '+', ',', ';', '=', ':', '[', ']', '<',
        '>', Char.ofNat 34] then false
  else if c ∈ ['-', '_', '.', '~'] then false
  else if c ∈ reservedChars ∧ mode = .encodePath then c = '?'
  else if c ∈ reservedChars ∧ mode = .encodeQueryComponent then true
  else if c ∈ reservedChars ∧ mode = .encodeFragment then false
  else if mode = .encodeFragment ∧ c ∈ ['!', '(', ')', '*'] then false
  else true

/-- The digit `"0123456789ABCDEF"[n]`. -/
def upperhex (n : Nat) : Char :=
  ['0', '1', '2', '3', '4', '5', '6', '7', '8', '9', 'A', 'B', 'C', 'D', 'E', 'F'].getD n '0'

/-- The function `ishex` of `net/url`. -/
def ishex (c : Char) : Bool :=
  ('0' ≤ c && c ≤ '9') || ('a' ≤ c && c ≤ 'f') || ('A' ≤ c && c ≤ 'F')

/-- The function `unhex` of `net/url`. -/
def unhex (c : Char) : Nat :=
  if '0' ≤ c ∧ c ≤ '9' then c.toNat - '0'.toNat
  else if 'a' ≤ c ∧ c ≤ 'f' then c.toNat - 'a'.toNat + 10
  else if 'A' ≤ c ∧ c ≤ 'F' then c.toNat - 'A'.toNat + 10
  else 0

/-- The function `escape` of `net/url`: a space becomes `+` in a query component, a byte that
`shouldEscape` names becomes `%XX`, every other byte is copied. A character that is not a byte
is copied. -/
def escape (mode : Encoding) (s : List Char) : List Char :=
  s.flatMap fun c =>
    if c = ' ' ∧ mode = .encodeQueryComponent then ['+']
    else if c.toNat < 256 ∧ shouldEscape c mode then
      ['%', upperhex (c.toNat / 16), upperhex (c.toNat % 16)]
    else [c]

/-- The function `unescape` of `net/url`: `%XX` becomes the byte, `+` becomes a space in a
query component; the error is the malformed escape or the byte that a host cannot contain. -/
def unescape (mode : Encoding) : List Char → Except (List Char) (List Char)
  | [] => .ok []
  | c :: rest =>
    if c = '%' then
      match rest with
      | a :: b :: rest' =>
        if ishex a ∧ ishex b then
          if mode = .encodeHost ∧ unhex a < 8 ∧ [c, a, b] ≠ ['%', '2', '5'] then
            .error [c, a, b]
          else
            match unescape mode rest' with
            | .ok t => .ok (Char.ofNat (unhex a * 16 + unhex b) :: t)
            | .error e => .error e
        else .error [c, a, b]
      | _ => .error (c :: rest)
    else if c = '+' then
      match unescape mode rest with
      | .ok t => .ok ((if mode = .encodeQueryComponent then ' ' else '+') :: t)
      | .error e => .error e
    else if mode = .encodeHost ∧ c.toNat < 128 ∧ shouldEscape c .encodeHost then .error [c]
    else
      match unescape mode rest with
      | .ok t => .ok (c :: t)
      | .error e => .error e

/-- The function `validEncoded` of `net/url`. -/
def validEncoded (mode : Encoding) (s : List Char) : Bool :=
  s.all fun c =>
    if c ∈ ['!', '$', '&', Char.ofNat 39, '(', ')', '*', '+', ',', ';', '=', ':', '@'] then true
    else if c ∈ ['[', ']'] then true
    else if c = '%' then true
    else !shouldEscape c mode

/-- The function `url.QueryEscape`. -/
def QueryEscape (s : String) : String :=
  ⟨escape .encodeQueryComponent s.data⟩

/-! ## Package `net/url`: `Values` -/

/-- The type `url.Values`. -/
abbrev Values := AList (fun _ : String => List String)

/-- The method `Values.Set`: `v[key] = []string{value}`. -/
def Values.Set (q : Values) (key value : String) : Values :=
  q.insert key [value]

/-- The method `Values.Add`: `v[key] = append(v[key], value)`. -/
def Values.Add (q : Values) (key value : String) : Values :=
  q.insert key ((q.lookup key).getD [] ++ [value])

/-- The pairs that `Values.Encode` writes, in its order: the keys sorted bytewise, and under
each key its values in their order. -/
def Values.pairs (q : Values) : List (String × String) :=
  (q.keys.insertionSort fun a b => a.data ≤ b.data).flatMap fun k =>
    ((q.lookup k).getD []).map fun v => (k, v)

/-- The method `Values.Encode`: every pair as `QueryEscape(key)=QueryEscape(value)`, with `&`
between the pairs. -/
def Values.Encode (q : Values) : String :=
  ⟨join '&' (q.pairs.map fun kv => (QueryEscape kv.1).data ++ '=' :: (QueryEscape kv.2).data)⟩

/-- One turn of the loop of `parseQuery` on the piece `key` that it cut off at `&`: a piece
with a semicolon, an empty piece and a piece whose key or value does not unescape are skipped;
otherwise the pair is appended to the values. -/
def parseQueryPiece (m : Values) (key : List Char) : Values :=
  if ';' ∈ key then m
  else if key = [] then m
  else
    match unescape .encodeQueryComponent (cut '=' key).1 with
    | .error _ => m
    | .ok k =>
      match unescape .encodeQueryComponent (cut '=' key).2 with
      | .error _ => m
      | .ok v => m.Add ⟨k⟩ ⟨v⟩

/-- The function `url.ParseQuery`, without its error (which `URL.Query` drops). Its loop cuts
the query at every `&` until nothing is left; the pieces it meets are those of `split`, up to an
empty last one, which `parseQueryPiece` skips like every empty piece. -/
def ParseQuery (query : String) : Values :=
  (split '&' query.data).foldl parseQueryPiece ∅

/-! ## Package `net/url`: `URL` -/

/-- The struct `url.URL`. `User` is the userinfo as it is written in a URL, when there is one.
A field that a struct literal does not name has its zero value. -/
structure URL where
  Scheme : String := ""
  Opaque : String := ""
  User : Option String := none
  Host : String := ""
  Path : String := ""
  RawPath : String := ""
  OmitHost : Bool := false
  ForceQuery : Bool := false
  RawQuery : String := ""
  Fragment : String := ""
  RawFragment : String := ""
  deriving DecidableEq, Repr

/-- The method `URL.Query`: `ParseQuery(u.RawQuery)` with the error dropped. -/
def URL.Query (u : URL) : Values :=
  ParseQuery u.RawQuery

/-- The test that `EscapedPath` and `EscapedFragment` make on `RawPath` and `RawFragment`: the
raw form is there, is validly encoded and unescapes to the decoded form. -/
def rawFormOk (mode : Encoding) (raw text : String) : Bool :=
  raw ≠ "" && validEncoded mode raw.data &&
    match unescape mode raw.data with
    | .ok p => p = text.data
    | .error _ => false

/-- The method `URL.EscapedPath`. -/
def URL.EscapedPath (u : URL) : List Char :=
  if rawFormOk .encodePath u.RawPath u.Path then u.RawPath.data
  else if u.Path = "*" then ['*']
  else escape .encodePath u.Path.data

/-- The method `URL.EscapedFragment`. -/
def URL.EscapedFragment (u : URL) : List Char :=
  if rawFormOk .encodeFragment u.RawFragment u.Fragment then u.RawFragment.data
  else escape .encodeFragment u.Fragment.data

/-- What `URL.String` has written when it comes to the query: the scheme as it stands, the
opaque part, or `//`, the userinfo, the escaped host and the escaped path. -/
def URL.textBeforeQuery (u : URL) : List Char :=
  let buf : List Char := if u.Scheme ≠ "" then u.Scheme.data ++ [':'] else []
  if u.Opaque ≠ "" then buf ++ u.Opaque.data
  else
    let buf :=
      if u.Scheme ≠ "" ∨ u.Host ≠ "" ∨ u.User ≠ none then
        if u.OmitHost ∧ u.Host = "" ∧ u.User = none then buf
        else
          let buf :=
            if u.Host ≠ "" ∨ u.Path ≠ "" ∨ u.User ≠ none then buf ++ ['/', '/'] else buf
          let buf :=
            match u.User with
            | some ui => buf ++ ui.data ++ ['@']
            | none => buf
          if u.Host ≠ "" then buf ++ escape .encodeHost u.Host.data else buf
      else buf
    let path := u.EscapedPath
    let buf :=
      if path ≠ [] ∧ path.head? ≠ some '/' ∧ u.Host ≠ "" then buf ++ ['/'] else buf
    let buf := if buf = [] ∧ ':' ∈ (cut '/' path).1 then buf ++ ['.', '/'] else buf
    buf ++ path

/-- The method `URL.String`. -/
def URL.String (u : URL) : String :=
  let buf := u.textBeforeQuery
  let buf := if u.ForceQuery ∨ u.RawQuery ≠ "" then buf ++ '?' :: u.RawQuery.data else buf
  let buf := if u.Fragment ≠ "" then buf ++ '#' :: u.EscapedFragment else buf
  ⟨buf⟩

/-- A byte that a scheme may hold anywhere: an ASCII letter. -/
def isSchemeLetter (c : Char) : Bool :=
  ('a' ≤ c && c ≤ 'z') || ('A' ≤ c && c ≤ 'Z')

/-- A byte that a scheme may hold after its first byte: a digit, `+`, `-` or `.`. -/
def isSchemeOther (c : Char) : Bool :=
  ('0' ≤ c && c ≤ '9') || c = '+' || c = '-' || c = '.'

/-- The loop of `getScheme` with `seen` the bytes before index `i` and the bytes from `i` on. -/
def getSchemeFrom (rawURL : List Char) :
    List Char → List Char → Except RequestError (List Char × List Char)
  | _, [] => .ok ([], rawURL)
  | seen, c :: cs =>
    if isSchemeLetter c then getSchemeFrom rawURL (seen ++ [c]) cs
    else if isSchemeOther c then
      if seen = [] then .ok ([], rawURL) else getSchemeFrom rawURL (seen ++ [c]) cs
    else if c = ':' then
      if seen = [] then .error .missingScheme else .ok (seen, cs)
    else .ok ([], rawURL)

/-- The function `getScheme` of `net/url`: the scheme and the text after its colon, or no scheme
and the whole text. -/
def getScheme (rawURL : List Char) : Except RequestError (List Char × List Char) :=
  getSchemeFrom rawURL [] rawURL

/-- The method `URL.setPath`. -/
def setPath (u : URL) (p : List Char) : Except RequestError URL :=
  match unescape .encodePath p with
  | .error e => .error (.invalidEscape ⟨e⟩)
  | .ok path =>
    .ok { u with
      Path := ⟨path⟩, RawPath := if p = escape .encodePath path then "" else ⟨p⟩ }

/-- The method `URL.setFragment`. -/
def setFragment (u : URL) (f : List Char) : Except RequestError URL :=
  match unescape .encodeFragment f with
  | .error e => .error (.invalidEscape ⟨e⟩)
  | .ok frag =>
    .ok { u with
      Fragment := ⟨frag⟩
      RawFragment := if f = escape .encodeFragment frag then "" else ⟨f⟩ }

/-- Whether the text starts with `/`. -/
def startsSlash : List Char → Bool
  | '/' :: _ => true
  | _ => false

/-- Whether the text starts with `//`. -/
def startsTwoSlashes : List Char → Bool
  | '/' :: '/' :: _ => true
  | _ => false

/-- Whether the text starts with `///`. -/
def startsThreeSlashes : List Char → Bool
  | '/' :: '/' :: '/' :: _ => true
  | _ => false

/-- The fields of `http.Request` that client.go sets. -/
structure Request where
  Method : String
  URL : URL
  Header : Values

/-- The fields of `http.Response` that client.go reads. `Body` is what `ioutil.ReadAll` yields;
`none` stands for a read that fails. -/
structure Response where
  Status : String
  StatusCode : Int
  Body : Option String

/-- Answers of the standard library that client.go depends on.
* `Unmarshal body` is the value left in `responseData` and the error returned by
  `json.Unmarshal(body, &responseData)`.
* `ParseAuthority authority` is what `parseAuthority` of `net/url` answers on the text between
  `//` and the next `/`: an error, or the userinfo (if any) and the host.
* `FloatToIntOutOfRange f` is the platform's result of `int(f)` when the truncated `f` does not
  fit an `int`. -/
structure Lib where
  Unmarshal : String → JSON × Option String
  ParseAuthority : String → Except String (Option String × String)
  FloatToIntOutOfRange : ℚ → Int

/-- One HTTP round trip: what `httpClient.Do(req)` answers under the given timeout (in
nanoseconds), either a transport error text or a response. -/
structure World where
  RoundTrip : Int → Request → Except String Response

/-- The function `parse` of `net/url` (with `viaRequest` false) from the point where the scheme
and the query are split off and stored in `url`: the rest is opaque, or an authority and a
path, or a path. -/
def parseRest (lib : Lib) (url : URL) (rest : List Char) : Except RequestError URL :=
  if ¬ startsSlash rest ∧ url.Scheme ≠ "" then .ok { url with Opaque := ⟨rest⟩ }
  else if ¬ startsSlash rest ∧ ':' ∈ (cut '/' rest).1 then .error .firstSegmentColon
  else if (url.Scheme ≠ "" ∨ ¬ startsThreeSlashes rest) ∧ startsTwoSlashes rest then
    let authority := (cut '/' (rest.drop 2)).1
    let rest := (rest.drop 2).drop authority.length
    match lib.ParseAuthority ⟨authority⟩ with
    | .error e => .error (.invalidAuthority e)
    | .ok (user, host) => setPath { url with User := user, Host := host } rest
  else if url.Scheme ≠ "" ∧ startsSlash rest then setPath { url with OmitHost := true } rest
  else setPath url rest

/-- The function `parse` of `net/url` (with `viaRequest` false): the control-character check,
the text `*`, the scheme (lower-cased), the query cut off at the first `?` (a lone final `?`
sets `ForceQuery`), then `parseRest`. -/
def parse (lib : Lib) (rawURL : List Char) : Except RequestError URL :=
  if rawURL.any (fun c => c.toNat < 32 ∨ c.toNat = 127) then .error .controlCharacter
  else if rawURL = ['*'] then .ok { Path := "*" }
  else
    match getScheme rawURL with
    | .error e => .error e
    | .ok (scheme, rest) =>
      let url : URL := { Scheme := ⟨scheme.map Char.toLower⟩ }
      if rest.getLast? = some '?' ∧ rest.count '?' = 1 then
        parseRest lib { url with ForceQuery := true } rest.dropLast
      else
        parseRest lib { url with RawQuery := ⟨(cut '?' rest).2⟩ } (cut '?' rest).1

/-- The function `url.Parse`: the fragment is cut off at the first `#`, the text before it is
parsed, and a non-empty fragment is stored. -/
def Parse (lib : Lib) (rawURL : String) : Except RequestError URL :=
  match parse lib (cut '#' rawURL.data).1 with
  | .error e => .error e
  | .ok url =>
    if (cut '#' rawURL.data).2 = [] then .ok url else setFragment url (cut '#' rawURL.data).2

/-! ## Package `net/http` -/

/-- A byte that an HTTP token may hold. The characters with codes 39 and 96 are the apostrophe
and the backquote. -/
def isTokenChar (c : Char) : Bool :=
  isAlnum c ||
    c ∈ ['!', '#', '$', '%', '&', Char.ofNat 39, '*', '+', '-', '.', '^', '_', Char.ofNat 96, '|',
      '~']

/-- The function `validMethod` of `net/http`. -/
def validMethod (method : String) : Bool :=
  method ≠ "" && method.data.all isTokenChar

/-- The function `removeEmptyPort` of `net/http`: a host that ends in the colon of an empty
port loses that colon. -/
def removeEmptyPort (host : String) : String :=
  if lastIndex ':' host.data > lastIndex ']' host.data ∧ host.data.getLast? = some ':' then
    ⟨host.data.dropLast⟩
  else host

/-- The call `http.NewRequest(method, url, nil)`: an empty method is `GET`, the method must be a
token, the text is parsed by `url.Parse`, and the request has that method, the parsed URL and an
empty header. -/
def httpNewRequest (lib : Lib) (method url : String) : Except Error Request :=
  let method := if method = "" then "GET" else method
  if ¬ validMethod method then .error (.construction (.invalidMethod method))
  else
    match Parse lib url with
    | .error e => .error (.construction e)
    | .ok u =>
      .ok { Method := method, URL := { u with Host := removeEmptyPort u.Host }, Header := ∅ }

/-! ## Machine arithmetic -/

/-- The constant `time.Second`, in nanoseconds. -/
def Second : Int := 1000000000

/-- Wrap-around of a mathematical integer to int64. -/
def wrapInt64 (x : Int) : Int :=
  (x + 2 ^ 63) % 2 ^ 64 - 2 ^ 63

/-- The expression `time.Duration(c.Timeout * time.Second)` of `Do` (client.go:55). -/
def timeout (c : Client) : Int :=
  wrapInt64 (c.Timeout * Second)

/-- Round the natural number `m` to a multiple of `2 ^ e`, ties to the even multiple. -/
def roundHalfEven (m e : Nat) : Nat :=
  let q := m / 2 ^ e
  let r := m % 2 ^ e
  (if 2 ^ e < 2 * r ∨ (2 * r = 2 ^ e ∧ q % 2 = 1) then q + 1 else q) * 2 ^ e

/-- Search for the exponent `e` at which `m` has at most 53 significant bits and round there. -/
def roundToFloat64 : Nat → Nat → Nat → Option Nat
  | 0, _, _ => none
  | fuel + 1, e, m =>
    if m < 2 ^ (53 + e) then some (roundHalfEven m e) else roundToFloat64 fuel (e + 1) m

/-- The power of two just above the largest finite float64, `(2^53 - 1) * 2^971`. -/
def float64Limit : Nat := 2 ^ 1024

/-- The float64 that the JSON number literal of the integer `n` decodes to
(`strconv.ParseFloat(s, 64)`: nearest float64, ties to even); `none` when it is out of the
float64 range, in which case `json.Unmarshal` reports an error. -/
def float64OfInt (n : Int) : Option ℚ :=
  match roundToFloat64 972 0 n.natAbs with
  | some r => if r < float64Limit then some ((n.sign * (r : Int) : Int) : ℚ) else none
  | none => none

/-- The conversion `int(f)` of a float64: truncation towards zero when the result fits an
`int` (64 bits), the platform's value otherwise. -/
def intOfFloat64 (lib : Lib) (f : ℚ) : Int :=
  let t := Int.tdiv f.num f.den
  if -2 ^ 63 ≤ t ∧ t < 2 ^ 63 then t else lib.FloatToIntOutOfRange f

/-! ## The operations of client.go -/

/-- The method `Client.NewRequest` (client.go:23-51). -/
def NewRequest (lib : Lib) (c : Client) (method path : String)
    (params : List (String × String)) : Except Error Request :=
  let url : URL := { Scheme := c.Scheme, Host := c.Host, Path := path }
  let query := url.Query
  let query := params.foldl (fun q kv => q.Set kv.1 kv.2) query
  let query := if c.Sid ≠ "" then query.Set "_sid" c.Sid else query
  let url : URL := { url with RawQuery := query.Encode }
  match httpNewRequest lib method url.String with
  | .error err => .error err
  | .ok req => .ok { req with Header := req.Header.Set "Accept" "application/json" }

/-- The method `Client.Do` (client.go:54-69). -/
def Do (w : World) (c : Client) (req : Request) : Except Error Response :=
  match w.RoundTrip (timeout c) req with
  | .error e => .error (.generic e)
  | .ok resp =>
    if resp.StatusCode ≥ 400 then .error (.generic resp.Status) else .ok resp

/-- The method `Client.AssertResponse` (client.go:105-120). -/
def AssertResponse (lib : Lib) (responseBody : String) : Outcome (Option Error) :=
  match lib.Unmarshal responseBody with
  | (_, some e) => .ret (some (.decode e))
  | (responseData, none) =>
    match responseData.asMap with
    | none => .panic .typeAssertion
    | some m =>
      match (index m "success").asBool with
      | none => .panic .typeAssertion
      | some true => .ret none
      | some false =>
        match (index m "error").asMap with
        | none => .panic .typeAssertion
        | some errorBlock =>
          match (index errorBlock "code").asFloat64 with
          | none => .panic .typeAssertion
          | some f => .ret (some (.syno (intOfFloat64 lib f)))

/-- The method `Client.Get` (client.go:72-102). The pair is Go's `(string, error)`. -/
def Get (lib : Lib) (w : World) (c : Client) (path : String)
    (params : List (String × String)) : Outcome (String × Option Error) :=
  match NewRequest lib c "GET" path params with
  | .error err => .ret ("", some err)
  | .ok req =>
    match Do w c req with
    | .error err => .ret ("", some err)
    | .ok resp =>
      match resp.Body with
      | none => .panic .readBody
      | some body =>
        match AssertResponse lib body with
        | .panic p => .panic p
        | .ret (some err) => .ret ("", some err)
        | .ret none => .ret (body, none)

/-- The method `Client.GetData` (client.go:163-167); the error of `json.Unmarshal` is
dropped. -/
def GetData (lib : Lib) (data : String) : Outcome JSON :=
  match (lib.Unmarshal data).1.asMap with
  | none => .panic .typeAssertion
  | some m => .ret (index m "data")

/-- The map literal `loginParams` of `Login`, in one of its iteration orders. -/
def loginParams (c : Client) : List (String × String) :=
  [("api", "SYNO.API.Auth"), ("version", "2"), ("method", "login"), ("account", c.Username),
   ("passwd", c.Password), ("session", c.Session), ("format", "sid")]

/-- The map literal `logoutParams` of `Logout`, in one of its iteration orders. -/
def logoutParams (c : Client) : List (String × String) :=
  [("api", "SYNO.API.Auth"), ("version", "2"), ("method", "logout"), ("session", c.Session)]

/-- The method `Client.Login` (client.go:122-144): the client after the call and Go's
`(sid, err)`. -/
def Login (lib : Lib) (w : World) (c : Client) : Client × Outcome (String × Option Error) :=
  match Get lib w c "webapi/auth.cgi" (loginParams c) with
  | .panic p => (c, .panic p)
  | .ret (_, some err) => (c, .ret ("", some err))
  | .ret (r, none) =>
    match GetData lib r with
    | .panic p => (c, .panic p)
    | .ret data =>
      match data.asMap with
      | none => (c, .panic .typeAssertion)
      | some m =>
        match (index m "sid").asString with
        | none => (c, .panic .typeAssertion)
        | some sid => ({ c with Sid := sid }, .ret (sid, none))

/-- The method `Client.Logout` (client.go:146-160): the client after the call and Go's
`error`. -/
def Logout (lib : Lib) (w : World) (c : Client) : Client × Outcome (Option Error) :=
  match Get lib w c "webapi/auth.cgi" (logoutParams c) with
  | .panic p => (c, .panic p)
  | .ret (_, some err) => (c, .ret (some err))
  | .ret (_, none) => (c, .ret none)

/-! ## Sequences of calls -/

/-- One call on the client by its owner. -/
inductive Call where
  | get (path : String) (params : List (String × String))
  | login
  | logout

/-- What a call gave back. -/
inductive CallResult where
  | get (r : Outcome (String × Option Error))
  | login (r : Outcome (String × Option Error))
  | logout (r : Outcome (Option Error))

/-- One call in the world `w`: the client afterwards and the result. `Get` has no assignment to a
field of the client. -/
def step (lib : Lib) (w : World) (c : Client) : Call → Client × CallResult
  | .get path params => (c, .get (Get lib w c path params))
  | .login => ((Login lib w c).1, .login (Login lib w c).2)
  | .logout => ((Logout lib w c).1, .logout (Logout lib w c).2)

/-- A sequence of calls, each with the world it meets: the client at the end and the results in
order. A call that panics leaves the client as it was; the calls after it are those of a caller
that recovers, and a process that ends there has run the sequence up to it. -/
def run (lib : Lib) (c : Client) : List (Call × World) → Client × List CallResult
  | [] => (c, [])
  | (call, w) :: rest =>
    ((run lib (step lib w c call).1 rest).1,
      (step lib w c call).2 :: (run lib (step lib w c call).1 rest).2)

/-- The `url.Values` that `NewRequest` has in `query` when it encodes it (client.go:31-39):
the parameters set one by one on the empty query, then the session id if there is one. -/
def queryOf (c : Client) (params : List (String × String)) : Values :=
  let query := params.foldl (fun q kv => q.Set kv.1 kv.2) (∅ : Values)
  if c.Sid ≠ "" then query.Set "_sid" c.Sid else query

/-- The URL that `NewRequest` assembles and writes out with `url.String()` (client.go:25-41). -/
def urlOf (c : Client) (path : String) (params : List (String × String)) : URL :=
  { Scheme := c.Scheme, Host := c.Host, Path := path, RawQuery := (queryOf c params).Encode }

/-- The text has neither `?` nor `#`. -/
def NoQueryMark (s : String) : Prop :=
  '?' ∉ s.data ∧ '#' ∉ s.data

/-! ## Sample inputs -/

/-- An unauthenticated client with a 30 second timeout. -/
def sampleClient : Client :=
  { Host := "nas.local:5001", Scheme := "https", Username := "admin", Password := "secret",
    Session := "DownloadStation", Timeout := 30, Sid := "" }

/-- The body `{"success":true,"data":{"sid":"ABC123"}}`. -/
def loginBody : String := "\x7b\"success\":true,\"data\":\x7b\"sid\":\"ABC123\"\x7d\x7d"

/-- The body `{"success":false,"error":{"code":400}}`. -/
def failureBody : String := "\x7b\"success\":false,\"error\":\x7b\"code\":400\x7d\x7d"

/-- The body `{"success":false,"error":{"code":9007199254740993}}`. -/
def bigCodeBody : String :=
  "\x7b\"success\":false,\"error\":\x7b\"code\":9007199254740993\x7d\x7d"

/-- The body `{"success":true,"data":{"sid":"ABC123"},"big":1e400}`: a JSON object whose last
member is a number outside the float64 range. -/
def loginBodyBig : String :=
  "\x7b\"success\":true,\"data\":\x7b\"sid\":\"ABC123\"\x7d,\"big\":1e400\x7d"

/-- The body `{"success":false,"error":{"code":400},"big":1e400}`. -/
def failureBodyBig : String :=
  "\x7b\"success\":false,\"error\":\x7b\"code\":400\x7d,\"big\":1e400\x7d"

/-- The error text of `json.Unmarshal` on a number outside the float64 range. -/
def bigNumberError : String :=
  "json: cannot unmarshal number 1e400 into Go value of type float64"

/-- What `json.Unmarshal` answers on the sample bodies: the three envelopes, the two envelopes
with the member `1e400` (the value is decoded with `nil` for that member and the error is
reported), the empty array `[]`, and a syntax error on the text `<html>`, which stands for
every other body. -/
def sampleUnmarshal (body : String) : JSON × Option String :=
  if body = loginBody then
    (.object [("success", .bool true), ("data", .object [("sid", .string "ABC123")])], none)
  else if body = failureBody then
    (.object [("success", .bool false),
      ("error", .object [("code", .number ((float64OfInt 400).getD 0))])], none)
  else if body = bigCodeBody then
    (.object [("success", .bool false),
      ("error", .object [("code", .number ((float64OfInt 9007199254740993).getD 0))])], none)
  else if body = loginBodyBig then
    (.object [("success", .bool true), ("data", .object [("sid", .string "ABC123")]),
      ("big", .null)], some bigNumberError)
  else if body = failureBodyBig then
    (.object [("success", .bool false),
      ("error", .object [("code", .number ((float64OfInt 400).getD 0))]),
      ("big", .null)], some bigNumberError)
  else if body = "[]" then (.array [], none)
  else (.null, some "invalid character '<' looking for beginning of value")

/-- A library that decodes the sample bodies, takes an authority as a host without userinfo (as
`net/url` does on `nas.local:5001` and `evil.example`), and converts out-of-range floats the way
amd64 does. -/
def sampleLib : Lib :=
  { Unmarshal := sampleUnmarshal
    ParseAuthority := fun authority => .ok (none, authority)
    FloatToIntOutOfRange := fun _ => -2 ^ 63 }

/-- The world in which the round trip answers `r` whatever the request. -/
def worldOf (r : Except String Response) : World :=
  { RoundTrip := fun _ _ => r }

/-- The sample client after a login that stored the session id `abc`. -/
def authClient : Client :=
  { sampleClient with Sid := "abc" }

/-- The authenticated sample client with a scheme that holds `?` and `#`. -/
def markedClient : Client :=
  { authClient with Scheme := "http://evil.example/?_sid=stolen#" }

/-- A parameter mapping that tries to supply its own `_sid`. -/
def spoofParams : List (String × String) :=
  [("b", "1"), ("_sid", "spoofed"), ("a", "2")]

/-- The request that `NewRequest` builds for `authClient` and `spoofParams`. -/
def spoofRequest : Request :=
  { Method := "GET"
    URL := { Scheme := "https", Host := "nas.local:5001", Path := "/webapi/entry.cgi",
             RawQuery := "_sid=abc&a=2&b=1" }
    Header := (∅ : Values).Set "Accept" "application/json" }

/-- The request that `NewRequest` builds for `markedClient` and `spoofParams`. -/
def markedRequest : Request :=
  { Method := "GET"
    URL := { Scheme := "http", Host := "evil.example", Path := "/", RawQuery := "_sid=stolen",
             Fragment := "://nas.local:5001/webapi/entry.cgi?_sid=abc&a=2&b=1" }
    Header := (∅ : Values).Set "Accept" "application/json" }

/-- A response with the given status and body. -/
def respOf (code : Int) (status : String) (body : Option String) : Response :=
  { Status := status, StatusCode := code, Body := body }

/-- The request that `NewRequest` builds for `sampleClient` and no parameters. -/
def plainRequest : Request :=
  { Method := "GET"
    URL := { Scheme := "https", Host := "nas.local:5001", Path := "/webapi/entry.cgi" }
    Header := (∅ : Values).Set "Accept" "application/json" }

/-- The request that `NewRequest` builds for the login call of `authClient`. -/
def loginRequest : Request :=
  { Method := "GET"
    URL := { Scheme := "https", Host := "nas.local:5001", Path := "/webapi/auth.cgi",
             RawQuery := "_sid=abc&account=admin&api=SYNO.API.Auth&format=sid&method=login" ++
               "&passwd=secret&session=DownloadStation&version=2" }
    Header := (∅ : Values).Set "Accept" "application/json" }

/-- A session in which the login is refused by the server, a `Get` then meets a body that is
not JSON, and the logout does not reach the server. -/
def sampleCalls : List (Call × World) :=
  [(.login, worldOf (.ok (respOf 500 "500 Internal Server Error" none))),
   (.get "webapi/entry.cgi" [], worldOf (.ok (respOf 200 "200 OK" (some "<html>")))),
   (.logout, worldOf (.error "dial tcp: i/o timeout"))]

/-! ## Lemmas on text -/

theorem cut_of_not_mem (sep : Char) (l : List Char) (h : sep ∉ l) : cut sep l = (l, []) := by
  induction l with
  | nil => rfl
  | cons c cs ih =>
    simp only [List.mem_cons, not_or] at h
    have hc : c ≠ sep := fun e => h.1 e.symm
    simp [cut, hc, ih h.2]

theorem cut_append_of_not_mem (sep : Char) (a b : List Char) (h : sep ∉ a) :
    cut sep (a ++ b) = (a ++ (cut sep b).1, (cut sep b).2) := by
  induction a with
  | nil => rfl
  | cons c cs ih =>
    simp only [List.mem_cons, not_or] at h
    have hc : c ≠ sep := fun e => h.1 e.symm
    simp [cut, hc, ih h.2]

theorem cut_append_sep (sep : Char) (a b : List Char) (h : sep ∉ a) :
    cut sep (a ++ sep :: b) = (a, b) := by
  rw [cut_append_of_not_mem sep a _ h]
  simp [cut]

theorem cut_snd_of_last (sep : Char) (l : List Char) (hlast : l.getLast? = some sep)
    (hcount : l.count sep = 1) : (cut sep l).2 = [] := by
  induction l with
  | nil => rfl
  | cons c cs ih =>
    by_cases hc : c = sep
    · subst hc
      have hcs : c ∉ cs := by
        rw [List.count_cons_self] at hcount
        exact List.count_eq_zero.mp (by omega)
      cases cs with
      | nil => simp [cut]
      | cons d ds =>
        exfalso
        apply hcs
        rw [List.getLast?_cons_cons] at hlast
        exact List.mem_of_getLast?_eq_some hlast
    · cases cs with
      | nil =>
        simp only [List.getLast?_singleton, Option.some.injEq] at hlast
        exact absurd hlast hc
      | cons d ds =>
        rw [List.getLast?_cons_cons] at hlast
        rw [List.count_cons_of_ne (Ne.symm hc)] at hcount
        rw [cut, if_neg hc]
        exact ih hlast hcount

theorem split_append_sep (sep : Char) (a b : List Char) (h : sep ∉ a) :
    split sep (a ++ sep :: b) = a :: split sep b := by
  induction a with
  | nil => simp [split]
  | cons c cs ih =>
    simp only [List.mem_cons, not_or] at h
    have hc : c ≠ sep := fun e => h.1 e.symm
    simp [split, hc, ih h.2]

theorem split_of_not_mem (sep : Char) (l : List Char) (h : sep ∉ l) : split sep l = [l] := by
  induction l with
  | nil => rfl
  | cons c cs ih =>
    simp only [List.mem_cons, not_or] at h
    have hc : c ≠ sep := fun e => h.1 e.symm
    simp [split, hc, ih h.2]

theorem split_join (sep : Char) (ps : List (List Char)) (hne : ps ≠ [])
    (h : ∀ p ∈ ps, sep ∉ p) : split sep (join sep ps) = ps := by
  induction ps with
  | nil => exact absurd rfl hne
  | cons p ps ih =>
    cases ps with
    | nil => exact split_of_not_mem sep p (h p (List.mem_cons_self _ _))
    | cons q qs =>
      rw [join, split_append_sep sep p _ (h p (List.mem_cons_self _ _)),
        ih (List.cons_ne_nil _ _) fun r hr => h r (List.mem_cons_of_mem _ hr)]

/-! ## Lemmas on escaping -/

theorem upperhex_mem (n : Nat) :
    upperhex n ∈
      ['0', '1', '2', '3', '4', '5', '6', '7', '8', '9', 'A', 'B', 'C', 'D', 'E', 'F'] := by
  by_cases h : n < 16
  · interval_cases n <;> decide
  · have : upperhex n = '0' := by
      unfold upperhex
      exact List.getD_eq_default _ _ (by simpa using h)
    rw [this]
    decide

theorem ishex_upperhex (n : Nat) : ishex (upperhex n) = true := by
  have h := upperhex_mem n
  revert h
  generalize upperhex n = c
  intro h
  simp only [List.mem_cons, List.mem_singleton, List.not_mem_nil, or_false] at h
  rcases h with h | h | h | h | h | h | h | h | h | h | h | h | h | h | h | h <;> subst h <;>
    decide

theorem unhex_upperhex (n : Nat) (h : n < 16) : unhex (upperhex n) = n := by
  interval_cases n <;> decide

theorem ofNat_unhex_upperhex (c : Char) (h : c.toNat < 256) :
    Char.ofNat (unhex (upperhex (c.toNat / 16)) * 16 + unhex (upperhex (c.toNat % 16))) = c := by
  rw [unhex_upperhex _ (by omega), unhex_upperhex _ (Nat.mod_lt _ (by norm_num)),
    Nat.div_add_mod' c.toNat 16, Char.ofNat_toNat]

/-- A byte that is escaped in a mode, and is neither `%`, `+` nor a hexadecimal digit, does not
occur in an escaped text of that mode. -/
theorem not_mem_escape (mode : Encoding) (x : Char) (s : List Char) (hx : x.toNat < 256)
    (hs : shouldEscape x mode = true) (hp : x ≠ '%') (hplus : x ≠ '+')
    (hh : x ∉ ['0', '1', '2', '3', '4', '5', '6', '7', '8', '9', 'A', 'B', 'C', 'D', 'E', 'F']) :
    x ∉ escape mode s := by
  unfold escape
  rw [List.mem_flatMap]
  rintro ⟨c, _, hc⟩
  split at hc
  · simp only [List.mem_singleton] at hc
    exact hplus hc
  · split at hc
    · simp only [List.mem_cons, List.mem_singleton, List.not_mem_nil, or_false] at hc
      rcases hc with hc | hc | hc
      · exact hp hc
      · exact hh (hc ▸ upperhex_mem _)
      · exact hh (hc ▸ upperhex_mem _)
    · rename_i hne
      simp only [List.mem_singleton] at hc
      subst hc
      exact hne ⟨hx, hs⟩

theorem unescape_plus (mode : Encoding) (t : List Char) :
    unescape mode ('+' :: t) =
      match unescape mode t with
      | .ok r => .ok ((if mode = .encodeQueryComponent then ' ' else '+') :: r)
      | .error e => .error e := by
  cases t with
  | nil => simp [unescape]
  | cons a t =>
    cases t with
    | nil => simp [unescape]
    | cons b t => simp [unescape]

theorem unescape_percent (mode : Encoding) (a b : Char) (t : List Char) (ha : ishex a = true)
    (hb : ishex b = true) (hm : mode ≠ .encodeHost) :
    unescape mode ('%' :: a :: b :: t) =
      match unescape mode t with
      | .ok r => .ok (Char.ofNat (unhex a * 16 + unhex b) :: r)
      | .error e => .error e := by
  simp [unescape, ha, hb, hm]

theorem unescape_copy (mode : Encoding) (c : Char) (t : List Char) (hp : c ≠ '%')
    (hplus : c ≠ '+') (hm : mode ≠ .encodeHost) :
    unescape mode (c :: t) =
      match unescape mode t with
      | .ok r => .ok (c :: r)
      | .error e => .error e := by
  cases t with
  | nil => simp [unescape, hp, hplus, hm]
  | cons a t =>
    cases t with
    | nil => simp [unescape, hp, hplus, hm]
    | cons b t => simp [unescape, hp, hplus, hm]

theorem escape_cons (mode : Encoding) (c : Char) (cs : List Char) :
    escape mode (c :: cs) =
      (if c = ' ' ∧ mode = .encodeQueryComponent then ['+']
       else if c.toNat < 256 ∧ shouldEscape c mode then
         ['%', upperhex (c.toNat / 16), upperhex (c.toNat % 16)]
       else [c]) ++ escape mode cs := by
  simp [escape, List.flatMap_cons]

theorem unescape_escape_query (s : List Char) :
    unescape .encodeQueryComponent (escape .encodeQueryComponent s) = .ok s := by
  induction s with
  | nil => rfl
  | cons c cs ih =>
    rw [escape_cons]
    by_cases hsp : c = ' '
    · subst hsp
      simp only [and_self, if_true, List.cons_append, List.nil_append]
      rw [unescape_plus, ih]
      rfl
    · by_cases hesc : c.toNat < 256 ∧ shouldEscape c .encodeQueryComponent
      · simp only [hsp, false_and, if_false, hesc, and_self, if_true, List.cons_append,
          List.nil_append]
        rw [unescape_percent _ _ _ _ (ishex_upperhex _) (ishex_upperhex _) (by decide), ih,
          ofNat_unhex_upperhex c hesc.1]
      · have hp : c ≠ '%' := by
          rintro rfl
          exact hesc (by decide)
        have hplus : c ≠ '+' := by
          rintro rfl
          exact hesc (by decide)
        simp only [hsp, false_and, if_false, hesc, List.cons_append, List.nil_append]
        rw [unescape_copy _ _ _ hp hplus (by decide), ih]

/-! ## Lemmas on queries -/

theorem lookup_cons_self {β : Type} (k : String) (b : β) (ps : List (String × β)) :
    List.lookup k ((k, b) :: ps) = some b := by
  simp [List.lookup_cons]

theorem lookup_cons_of_ne {β : Type} (a k : String) (b : β) (ps : List (String × β))
    (h : k ≠ a) : List.lookup k ((a, b) :: ps) = List.lookup k ps := by
  have hb : (k == a) = false := by simpa using h
  simp [List.lookup_cons, hb]

theorem lookup_eq_none_of_not_mem_keys (ps : List (String × String)) (k : String)
    (h : k ∉ ps.map Prod.fst) : ps.lookup k = none := by
  induction ps with
  | nil => rfl
  | cons p ps ih =>
    obtain ⟨a, b⟩ := p
    simp only [List.map_cons, List.mem_cons, not_or] at h
    rw [lookup_cons_of_ne a k b ps h.1, ih h.2]

theorem lookup_eq_some_iff_mem (ps : List (String × String)) (hnd : (ps.map Prod.fst).Nodup)
    (k v : String) : ps.lookup k = some v ↔ (k, v) ∈ ps := by
  induction ps with
  | nil => simp
  | cons p ps ih =>
    obtain ⟨a, b⟩ := p
    simp only [List.map_cons, List.nodup_cons] at hnd
    by_cases hk : k = a
    · subst hk
      have hno : ∀ v, (k, v) ∉ ps := fun v hv => hnd.1 (List.mem_map_of_mem Prod.fst hv)
      simp [lookup_cons_self, hno, eq_comm]
    · simp [lookup_cons_of_ne a k b ps hk, hk, ih hnd.2]

theorem lookup_foldl_Set (ps : List (String × String)) (hnd : (ps.map Prod.fst).Nodup)
    (q : Values) (k : String) :
    (ps.foldl (fun q kv => q.Set kv.1 kv.2) q).lookup k =
      match ps.lookup k with
      | some v => some [v]
      | none => q.lookup k := by
  induction ps generalizing q with
  | nil => rfl
  | cons p ps ih =>
    obtain ⟨a, b⟩ := p
    simp only [List.map_cons, List.nodup_cons] at hnd
    simp only [List.foldl_cons]
    rw [ih hnd.2]
    by_cases hk : k = a
    · subst hk
      simp [lookup_cons_self, lookup_eq_none_of_not_mem_keys ps k hnd.1, Values.Set]
    · simp [lookup_cons_of_ne a k b ps hk, Values.Set, AList.lookup_insert_ne hk]

theorem mem_pairs (q : Values) (k v : String) :
    (k, v) ∈ q.pairs ↔ ∃ vs, q.lookup k = some vs ∧ v ∈ vs := by
  unfold Values.pairs
  rw [List.mem_flatMap]
  constructor
  · rintro ⟨k', _, hmem⟩
    rw [List.mem_map] at hmem
    obtain ⟨v', hv', heq⟩ := hmem
    simp only [Prod.mk.injEq] at heq
    obtain ⟨rfl, rfl⟩ := heq
    cases hl : q.lookup k' with
    | none => simp [hl] at hv'
    | some vs => exact ⟨vs, rfl, by simpa [hl] using hv'⟩
  · rintro ⟨vs, hl, hv⟩
    refine ⟨k, ?_, ?_⟩
    · rw [(List.perm_insertionSort _ _).mem_iff, ← AList.mem_keys, ← AList.lookup_isSome, hl]
      rfl
    · simp [hl, hv]

theorem map_fst_flatMap_singleton (f : String → List String) (l : List String)
    (h : ∀ k ∈ l, ∃ v, f k = [v]) :
    (l.flatMap fun k => (f k).map fun v => (k, v)).map Prod.fst = l := by
  induction l with
  | nil => rfl
  | cons a l ih =>
    obtain ⟨v, hv⟩ := h a (List.mem_cons_self a l)
    rw [List.flatMap_cons, List.map_append, ih fun k hk => h k (List.mem_cons_of_mem a hk), hv]
    rfl

theorem pairs_keys_nodup (q : Values) (h : ∀ k vs, q.lookup k = some vs → ∃ v, vs = [v]) :
    (q.pairs.map Prod.fst).Nodup := by
  unfold Values.pairs
  rw [map_fst_flatMap_singleton]
  · exact (List.perm_insertionSort _ _).nodup_iff.mpr q.keys_nodup
  · intro k hk
    rw [(List.perm_insertionSort _ _).mem_iff, ← AList.mem_keys, ← AList.lookup_isSome] at hk
    cases hl : q.lookup k with
    | none => simp [hl] at hk
    | some vs =>
      obtain ⟨v, rfl⟩ := h k vs hl
      exact ⟨v, rfl⟩

theorem pairs_congr (q₁ q₂ : Values) (h : ∀ k, q₁.lookup k = q₂.lookup k) :
    q₁.pairs = q₂.pairs := by
  have hkeys : q₁.keys.Perm q₂.keys := by
    rw [List.perm_ext_iff_of_nodup q₁.keys_nodup q₂.keys_nodup]
    intro k
    rw [← AList.mem_keys, ← AList.mem_keys, ← AList.lookup_isSome, ← AList.lookup_isSome,
      h k]
  haveI : IsTotal String fun a b => a.data ≤ b.data := ⟨fun a b => le_total a.data b.data⟩
  haveI : IsTrans String fun a b => a.data ≤ b.data :=
    ⟨fun a b c hab hbc => le_trans hab hbc⟩
  haveI : IsAntisymm String fun a b => a.data ≤ b.data :=
    ⟨fun a b hab hba => String.ext (le_antisymm hab hba)⟩
  have hsorted : (q₁.keys.insertionSort fun a b => a.data ≤ b.data) =
      q₂.keys.insertionSort fun a b => a.data ≤ b.data :=
    List.eq_of_perm_of_sorted
      (((List.perm_insertionSort _ _).trans hkeys).trans (List.perm_insertionSort _ _).symm)
      (List.sorted_insertionSort _ _) (List.sorted_insertionSort _ _)
  unfold Values.pairs
  rw [hsorted]
  congr 1
  funext k
  rw [h k]

theorem lookup_foldl_Add (l : List (String × String)) (hnd : (l.map Prod.fst).Nodup)
    (q : Values) (hq : ∀ k ∈ l.map Prod.fst, q.lookup k = none) (k : String) :
    (l.foldl (fun q kv => q.Add kv.1 kv.2) q).lookup k =
      match l.lookup k with
      | some v => some [v]
      | none => q.lookup k := by
  induction l generalizing q with
  | nil => rfl
  | cons p l ih =>
    obtain ⟨a, b⟩ := p
    simp only [List.map_cons, List.nodup_cons] at hnd
    have hadd : q.Add a b = q.Set a b := by
      simp [Values.Add, Values.Set, hq a (by simp)]
    have hq' : ∀ k ∈ l.map Prod.fst, (q.Set a b).lookup k = none := by
      intro k hk
      have hka : k ≠ a := fun h => hnd.1 (h ▸ hk)
      simp only [Values.Set]
      rw [AList.lookup_insert_ne hka]
      exact hq k (List.mem_cons_of_mem _ hk)
    simp only [List.foldl_cons, hadd]
    rw [ih hnd.2 (q.Set a b) hq']
    by_cases hk : k = a
    · subst hk
      simp [lookup_cons_self, lookup_eq_none_of_not_mem_keys l k hnd.1, Values.Set]
    · simp [lookup_cons_of_ne a k b l hk, Values.Set, AList.lookup_insert_ne hk]

theorem foldl_Add_pairs_lookup (q : Values) (h : ∀ k vs, q.lookup k = some vs → ∃ v, vs = [v])
    (k : String) :
    (q.pairs.foldl (fun (m : Values) kv => m.Add kv.1 kv.2) ∅).lookup k = q.lookup k := by
  have hnd := pairs_keys_nodup q h
  rw [lookup_foldl_Add q.pairs hnd ∅ (fun _ _ => AList.lookup_empty _) k]
  cases hl : q.lookup k with
  | none =>
    have hnone : q.pairs.lookup k = none := by
      cases hE : q.pairs.lookup k with
      | none => rfl
      | some v =>
        rw [lookup_eq_some_iff_mem q.pairs hnd, mem_pairs, hl] at hE
        obtain ⟨vs, hvs, _⟩ := hE
        cases hvs
    rw [hnone]
    rfl
  | some vs =>
    obtain ⟨v, rfl⟩ := h k vs hl
    have hsome : q.pairs.lookup k = some v := by
      rw [lookup_eq_some_iff_mem q.pairs hnd, mem_pairs]
      exact ⟨[v], hl, List.mem_singleton_self v⟩
    rw [hsome]

theorem Encode_congr (q₁ q₂ : Values) (h : ∀ k, q₁.lookup k = q₂.lookup k) :
    q₁.Encode = q₂.Encode := by
  unfold Values.Encode
  rw [pairs_congr q₁ q₂ h]

/-! ## Lemmas on the encoded query -/

theorem not_mem_QueryEscape (x : Char) (s : String) (hx : x ∈ ['&', '=', ';', '?', '#']) :
    x ∉ (QueryEscape s).data := by
  simp only [List.mem_cons, List.mem_singleton, List.not_mem_nil, or_false] at hx
  rcases hx with h | h | h | h | h <;> subst h <;>
    exact not_mem_escape _ _ _ (by decide) (by decide) (by decide) (by decide) (by decide)

theorem not_mem_encoded_pair (x : Char) (kv : String × String) (hx : x ∈ ['&', ';', '?', '#']) :
    x ∉ (QueryEscape kv.1).data ++ '=' :: (QueryEscape kv.2).data := by
  have hx' : x ∈ ['&', '=', ';', '?', '#'] := by
    simp only [List.mem_cons, List.mem_singleton, List.not_mem_nil, or_false] at hx ⊢
    tauto
  have hne : x ≠ '=' := by
    simp only [List.mem_cons, List.mem_singleton, List.not_mem_nil, or_false] at hx
    rcases hx with h | h | h | h <;> subst h <;> decide
  simp only [List.mem_append, List.mem_cons, not_or]
  exact ⟨not_mem_QueryEscape x kv.1 hx', hne, not_mem_QueryEscape x kv.2 hx'⟩

theorem not_mem_join (sep x : Char) (ps : List (List Char)) (hsep : x ≠ sep)
    (h : ∀ p ∈ ps, x ∉ p) : x ∉ join sep ps := by
  induction ps with
  | nil => simp [join]
  | cons p ps ih =>
    cases ps with
    | nil => exact h p (List.mem_cons_self _ _)
    | cons q qs =>
      rw [join]
      simp only [List.mem_append, List.mem_cons, not_or]
      exact ⟨h p (List.mem_cons_self _ _), hsep,
        ih fun r hr => h r (List.mem_cons_of_mem _ hr)⟩

/-- The text of `Values.Encode` has no `#`, so `url.Parse` finds no fragment in it. -/
theorem not_mem_Encode (q : Values) : '#' ∉ q.Encode.data := by
  unfold Values.Encode
  apply not_mem_join _ _ _ (by decide)
  intro p hp
  rw [List.mem_map] at hp
  obtain ⟨kv, _, rfl⟩ := hp
  exact not_mem_encoded_pair _ kv (by decide)

theorem parseQueryPiece_encoded (m : Values) (kv : String × String) :
    parseQueryPiece m ((QueryEscape kv.1).data ++ '=' :: (QueryEscape kv.2).data) =
      m.Add kv.1 kv.2 := by
  unfold parseQueryPiece
  rw [if_neg (not_mem_encoded_pair _ kv (by decide)), if_neg (by simp),
    cut_append_sep _ _ _ (not_mem_QueryEscape _ kv.1 (by decide))]
  simp only [QueryEscape, unescape_escape_query]

/-- Reading back what `Values.Encode` wrote gives every pair, in the order written. -/
theorem ParseQuery_Encode (q : Values) :
    ParseQuery q.Encode = q.pairs.foldl (fun (m : Values) kv => m.Add kv.1 kv.2) ∅ := by
  unfold ParseQuery Values.Encode
  cases hp : q.pairs with
  | nil => simp [join, split, parseQueryPiece]
  | cons kv kvs =>
    rw [← hp, split_join _ _ (by simp [hp])]
    · rw [List.foldl_map]
      congr 1
      funext m kv
      exact parseQueryPiece_encoded m kv
    · intro p hp'
      rw [List.mem_map] at hp'
      obtain ⟨kv, _, rfl⟩ := hp'
      exact not_mem_encoded_pair _ kv (by decide)

theorem ParseQuery_empty : ParseQuery "" = ∅ := rfl

/-! ## Lemmas on `url.Parse` -/

theorem getSchemeFrom_spec (rawURL : List Char) (l seen sch rest : List Char)
    (hraw : rawURL = seen ++ l) (hseen : '?' ∉ seen)
    (h : getSchemeFrom rawURL seen l = .ok (sch, rest)) :
    rest = rawURL ∨ (rawURL = sch ++ ':' :: rest ∧ '?' ∉ sch) := by
  induction l generalizing seen with
  | nil =>
    simp only [getSchemeFrom, Except.ok.injEq, Prod.mk.injEq] at h
    exact Or.inl h.2.symm
  | cons c cs ih =>
    have hstep : ∀ (hc : c ≠ '?'),
        getSchemeFrom rawURL (seen ++ [c]) cs = .ok (sch, rest) →
        rest = rawURL ∨ (rawURL = sch ++ ':' :: rest ∧ '?' ∉ sch) := by
      intro hc h'
      apply ih (seen ++ [c]) (by simp [hraw]) _ h'
      simp only [List.mem_append, List.mem_singleton, not_or]
      exact ⟨hseen, fun e => hc e.symm⟩
    rw [getSchemeFrom] at h
    split at h
    · rename_i hl
      exact hstep (by rintro rfl; exact absurd hl (by decide)) h
    · split at h
      · rename_i ho
        split at h
        · simp only [Except.ok.injEq, Prod.mk.injEq] at h
          exact Or.inl h.2.symm
        · exact hstep (by rintro rfl; exact absurd ho (by decide)) h
      · split at h
        · rename_i hcolon
          split at h
          · cases h
          · simp only [Except.ok.injEq, Prod.mk.injEq] at h
            obtain ⟨rfl, rfl⟩ := h
            exact Or.inr ⟨by rw [hraw, hcolon], hseen⟩
        · simp only [Except.ok.injEq, Prod.mk.injEq] at h
          exact Or.inl h.2.symm

/-- What `getScheme` leaves as the rest has the same text after its first `?` as the whole. -/
theorem getScheme_cut (rawURL sch rest : List Char) (h : getScheme rawURL = .ok (sch, rest)) :
    (cut '?' rest).2 = (cut '?' rawURL).2 := by
  rcases getSchemeFrom_spec rawURL rawURL [] sch rest rfl (by simp) h with h | ⟨h, hs⟩
  · rw [h]
  · rw [h, cut_append_of_not_mem '?' sch _ hs]
    simp [cut]

theorem setPath_rawQuery (u v : URL) (p : List Char) (h : setPath u p = .ok v) :
    v.RawQuery = u.RawQuery := by
  unfold setPath at h
  split at h
  · cases h
  · cases h
    rfl

theorem setFragment_rawQuery (u v : URL) (f : List Char) (h : setFragment u f = .ok v) :
    v.RawQuery = u.RawQuery := by
  unfold setFragment at h
  split at h
  · cases h
  · cases h
    rfl

theorem parseRest_rawQuery (lib : Lib) (u v : URL) (rest : List Char)
    (h : parseRest lib u rest = .ok v) : v.RawQuery = u.RawQuery := by
  unfold parseRest at h
  split at h
  · cases h
    rfl
  · split at h
    · cases h
    · split at h
      · simp only at h
        split at h
        · cases h
        · have hq := setPath_rawQuery _ _ _ h
          exact hq
      · split at h
        · have hq := setPath_rawQuery _ _ _ h
          exact hq
        · exact setPath_rawQuery _ _ _ h

/-- The raw query of a URL that `parse` yields is the text after the first `?`. -/
theorem parse_rawQuery (lib : Lib) (rawURL : List Char) (u : URL)
    (h : parse lib rawURL = .ok u) : u.RawQuery = ⟨(cut '?' rawURL).2⟩ := by
  unfold parse at h
  split at h
  · cases h
  · split at h
    · rename_i hstar
      cases h
      rw [hstar]
      rfl
    · split at h
      · cases h
      · rename_i scheme rest hs
        have hcut := getScheme_cut rawURL scheme rest hs
        simp only at h
        split at h
        · rename_i hforce
          rw [parseRest_rawQuery lib _ u _ h, ← hcut, cut_snd_of_last '?' rest hforce.1 hforce.2]
        · rw [parseRest_rawQuery lib _ u _ h, hcut]

/-- The raw query of a URL that `url.Parse` yields is the text between the first `?` and the
first `#`. -/
theorem Parse_rawQuery (lib : Lib) (rawURL : String) (u : URL) (h : Parse lib rawURL = .ok u) :
    u.RawQuery = ⟨(cut '?' (cut '#' rawURL.data).1).2⟩ := by
  unfold Parse at h
  split at h
  · cases h
  · rename_i url hp
    split at h
    · cases h
      exact parse_rawQuery lib _ _ hp
    · rw [setFragment_rawQuery _ _ _ h]
      exact parse_rawQuery lib _ _ hp

/-! ## Lemmas on `URL.String` -/

theorem not_mem_escape_host (x : Char) (s : List Char) (hx : x = '?' ∨ x = '#') :
    x ∉ escape .encodeHost s := by
  rcases hx with h | h <;> subst h <;>
    exact not_mem_escape _ _ _ (by decide) (by decide) (by decide) (by decide) (by decide)

theorem not_mem_escape_path (x : Char) (s : List Char) (hx : x = '?' ∨ x = '#') :
    x ∉ escape .encodePath s := by
  rcases hx with h | h <;> subst h <;>
    exact not_mem_escape _ _ _ (by decide) (by decide) (by decide) (by decide) (by decide)

theorem not_mem_EscapedPath_urlOf (x : Char) (c : Client) (path : String)
    (params : List (String × String)) (hx : x = '?' ∨ x = '#') :
    x ∉ (urlOf c path params).EscapedPath := by
  have hraw : rawFormOk .encodePath (urlOf c path params).RawPath (urlOf c path params).Path =
      false := by
    simp [rawFormOk, urlOf]
  unfold URL.EscapedPath
  rw [hraw]
  simp only [Bool.false_eq_true, if_false]
  split
  · rcases hx with h | h <;> subst h <;> decide
  · exact not_mem_escape_path x _ hx

theorem not_mem_ite (x : Char) (p : Prop) [Decidable p] (a b : List Char) (ha : x ∉ a)
    (hb : x ∉ b) : x ∉ (if p then a else b) := by
  split <;> assumption

theorem not_mem_append_of (x : Char) (a b : List Char) (ha : x ∉ a) (hb : x ∉ b) :
    x ∉ a ++ b := by
  simp [ha, hb]

theorem not_mem_textBeforeQuery_of (x : Char) (u : URL) (ho : u.Opaque = "")
    (hu : u.User = none) (h1 : x ≠ ':') (h2 : x ≠ '/') (h3 : x ≠ '.')
    (hs : x ∉ u.Scheme.data) (hh : x ∉ escape .encodeHost u.Host.data)
    (hp : x ∉ u.EscapedPath) : x ∉ u.textBeforeQuery := by
  have hb0 : x ∉ (if u.Scheme ≠ "" then u.Scheme.data ++ [':'] else []) :=
    not_mem_ite _ _ _ _ (not_mem_append_of _ _ _ hs (by simp [h1])) (by simp)
  unfold URL.textBeforeQuery
  rw [if_neg (by simp [ho]), hu]
  simp only []
  apply not_mem_append_of _ _ _ _ hp
  repeat' first
    | exact hb0
    | apply not_mem_ite
    | apply not_mem_append_of _ _ _ _ hh
    | apply not_mem_append_of _ _ _ _ (by simp [h2, h3])

/-- With no `?` and no `#` in the scheme, what `URL.String` writes before the query of the URL
that `NewRequest` assembled has neither. -/
theorem not_mem_textBeforeQuery (x : Char) (c : Client) (path : String)
    (params : List (String × String)) (hx : x = '?' ∨ x = '#') (hs : x ∉ c.Scheme.data) :
    x ∉ (urlOf c path params).textBeforeQuery := by
  apply not_mem_textBeforeQuery_of x _ rfl rfl
  · rcases hx with h | h <;> subst h <;> decide
  · rcases hx with h | h <;> subst h <;> decide
  · rcases hx with h | h <;> subst h <;> decide
  · exact hs
  · exact not_mem_escape_host x c.Host.data hx
  · exact not_mem_EscapedPath_urlOf x c path params hx

theorem String_urlOf (c : Client) (path : String) (params : List (String × String)) :
    (urlOf c path params).String.data =
      (urlOf c path params).textBeforeQuery ++
        if (queryOf c params).Encode ≠ "" then '?' :: (queryOf c params).Encode.data else [] := by
  have hf : (urlOf c path params).ForceQuery = false := rfl
  have hfr : (urlOf c path params).Fragment = "" := rfl
  have hq : (urlOf c path params).RawQuery = (queryOf c params).Encode := rfl
  unfold URL.String
  simp only [hf, hfr, hq, Bool.false_eq_true, false_or, ne_eq, not_true_eq_false, if_false]
  split <;> simp

/-- With no `?` and no `#` in the scheme, the text that `NewRequest` hands to `http.NewRequest`
has no `#`, and after its first `?` comes the encoded query. -/
theorem cut_String_urlOf (c : Client) (path : String) (params : List (String × String))
    (hs : NoQueryMark c.Scheme) :
    (cut '#' (urlOf c path params).String.data).1 = (urlOf c path params).String.data ∧
    (cut '?' (urlOf c path params).String.data).2 = (queryOf c params).Encode.data := by
  have hq := not_mem_textBeforeQuery '?' c path params (Or.inl rfl) hs.1
  have hh := not_mem_textBeforeQuery '#' c path params (Or.inr rfl) hs.2
  rw [String_urlOf]
  constructor
  · rw [cut_of_not_mem]
    simp only [List.mem_append, not_or]
    refine ⟨hh, ?_⟩
    split
    · simp only [List.mem_cons, not_or]
      exact ⟨by decide, not_mem_Encode _⟩
    · simp
  · split
    · rw [cut_append_sep _ _ _ hq]
    · rename_i he
      rw [List.append_nil, cut_of_not_mem _ _ hq]
      simp only [ne_eq, not_not] at he
      rw [he]

/-! ## Lemmas on `NewRequest` -/

theorem NewRequest_eq (lib : Lib) (c : Client) (method path : String)
    (params : List (String × String)) :
    NewRequest lib c method path params =
      match httpNewRequest lib method (urlOf c path params).String with
      | .error err => .error err
      | .ok req => .ok { req with Header := req.Header.Set "Accept" "application/json" } :=
  rfl

theorem httpNewRequest_rawQuery (lib : Lib) (method url : String) (req : Request)
    (h : httpNewRequest lib method url = .ok req) :
    req.URL.RawQuery = ⟨(cut '?' (cut '#' url.data).1).2⟩ := by
  unfold httpNewRequest at h
  simp only at h
  by_cases hv : validMethod (if method = "" then "GET" else method) = true
  · rw [if_neg (by simp [hv])] at h
    cases hp : Parse lib url with
    | error e =>
      rw [hp] at h
      cases h
    | ok u =>
      rw [hp] at h
      cases h
      exact Parse_rawQuery lib url u hp
  · rw [if_pos (by simpa using hv)] at h
    cases h

/-- With no `?` and no `#` in the scheme, the raw query of the request that `NewRequest` builds
is the text that `Values.Encode` wrote. -/
theorem NewRequest_rawQuery (lib : Lib) (c : Client) (method path : String)
    (params : List (String × String)) (req : Request) (hs : NoQueryMark c.Scheme)
    (h : NewRequest lib c method path params = .ok req) :
    req.URL.RawQuery = (queryOf c params).Encode := by
  rw [NewRequest_eq] at h
  split at h
  · cases h
  · rename_i r hr
    cases h
    have hq := httpNewRequest_rawQuery lib method _ r hr
    rw [(cut_String_urlOf c path params hs).1, (cut_String_urlOf c path params hs).2] at hq
    exact hq

theorem foldl_Set_singleton (ps : List (String × String)) (q : Values)
    (hq : ∀ k vs, q.lookup k = some vs → ∃ v, vs = [v]) :
    ∀ k vs, (ps.foldl (fun q kv => q.Set kv.1 kv.2) q).lookup k = some vs →
      ∃ v, vs = [v] := by
  induction ps generalizing q with
  | nil => exact hq
  | cons p ps ih =>
    apply ih
    intro k vs hvs
    by_cases hk : k = p.1
    · subst hk
      simp only [Values.Set, AList.lookup_insert, Option.some.injEq] at hvs
      exact ⟨p.2, hvs.symm⟩
    · simp only [Values.Set, AList.lookup_insert_ne hk] at hvs
      exact hq k vs hvs

theorem lookup_queryOf (c : Client) (params : List (String × String))
    (hnd : (params.map Prod.fst).Nodup) (k : String) :
    (queryOf c params).lookup k =
      if c.Sid ≠ "" ∧ k = "_sid" then some [c.Sid] else (params.lookup k).map fun v => [v] := by
  unfold queryOf
  by_cases hs : c.Sid = ""
  · simp only [hs, ne_eq, not_true_eq_false, false_and, if_false]
    rw [lookup_foldl_Set params hnd]
    cases params.lookup k <;> simp
  · by_cases hk : k = "_sid"
    · subst hk
      simp [hs, Values.Set]
    · simp only [ne_eq, hs, not_false_eq_true, hk, and_false, if_false, if_true, Values.Set]
      rw [AList.lookup_insert_ne hk]
      have := lookup_foldl_Set params hnd ∅ k
      simp only [Values.Set] at this
      rw [this]
      cases params.lookup k <;> simp

theorem queryOf_singleton (c : Client) (params : List (String × String)) (k : String)
    (vs : List String) (hvs : (queryOf c params).lookup k = some vs) : ∃ v, vs = [v] := by
  unfold queryOf at hvs
  have hfold := foldl_Set_singleton params ∅ (fun k vs h => by simp at h)
  split at hvs
  · by_cases hk : k = "_sid"
    · subst hk
      simp only [Values.Set, AList.lookup_insert, Option.some.injEq] at hvs
      exact ⟨c.Sid, hvs.symm⟩
    · simp only [Values.Set, AList.lookup_insert_ne hk] at hvs
      exact hfold k vs hvs
  · exact hfold k vs hvs

/-- Read back with `URL.Query`, the text that `Values.Encode` wrote for the query of
`NewRequest` has the values of that query. -/
theorem Query_Encode_queryOf (u : URL) (c : Client) (params : List (String × String))
    (hu : u.RawQuery = (queryOf c params).Encode) (k : String) :
    u.Query.lookup k = (queryOf c params).lookup k := by
  unfold URL.Query
  rw [hu, ParseQuery_Encode]
  exact foldl_Add_pairs_lookup _ (queryOf_singleton c params) k

theorem lookup_queryOf_sid (c : Client) (params : List (String × String)) (hs : c.Sid ≠ "") :
    (queryOf c params).lookup "_sid" = some [c.Sid] := by
  simp [queryOf, hs, Values.Set]

theorem queryOf_perm (c : Client) (params params' : List (String × String))
    (hnd : (params.map Prod.fst).Nodup) (hp : params'.Perm params) :
    (queryOf c params').Encode = (queryOf c params).Encode := by
  have hnd' : (params'.map Prod.fst).Nodup := ((hp.map Prod.fst).nodup_iff).mpr hnd
  apply Encode_congr
  intro k
  rw [lookup_queryOf c params hnd, lookup_queryOf c params' hnd']
  have hl : params'.lookup k = params.lookup k := by
    apply Option.ext
    intro v
    rw [Option.mem_def, Option.mem_def, lookup_eq_some_iff_mem params' hnd',
      lookup_eq_some_iff_mem params hnd]
    exact hp.mem_iff
  rw [hl]

/-! ## Lemmas on `Do` and `Get` -/

theorem Do_of_response (w : World) (c : Client) (req : Request) (resp : Response)
    (hrt : w.RoundTrip (timeout c) req = .ok resp) :
    Do w c req = if resp.StatusCode ≥ 400 then .error (.generic resp.Status) else .ok resp := by
  simp [Do, hrt]

theorem Get_of_status_error (lib : Lib) (w : World) (c : Client) (path : String)
    (params : List (String × String)) (req : Request) (resp : Response)
    (hreq : NewRequest lib c "GET" path params = .ok req)
    (hrt : w.RoundTrip (timeout c) req = .ok resp) (hst : 400 ≤ resp.StatusCode) :
    Get lib w c path params = .ret ("", some (.generic resp.Status)) := by
  simp [Get, hreq, Do_of_response w c req resp hrt, hst]

theorem Get_of_body (lib : Lib) (w : World) (c : Client) (path : String)
    (params : List (String × String)) (req : Request) (resp : Response) (body : String)
    (hreq : NewRequest lib c "GET" path params = .ok req)
    (hrt : w.RoundTrip (timeout c) req = .ok resp) (hst : resp.StatusCode < 400)
    (hbody : resp.Body = some body) :
    Get lib w c path params =
      match AssertResponse lib body with
      | .panic p => .panic p
      | .ret (some err) => .ret ("", some err)
      | .ret none => .ret (body, none) := by
  have hst' : ¬ (400 ≤ resp.StatusCode) := not_le.mpr hst
  simp [Get, hreq, Do_of_response w c req resp hrt, hst', hbody]

theorem NewRequest_Unmarshal_irrelevant (lib : Lib) (unmarshal : String → JSON × Option String)
    (c : Client) (method path : String) (params : List (String × String)) :
    NewRequest { lib with Unmarshal := unmarshal } c method path params =
      NewRequest lib c method path params :=
  rfl

/-! ## Lemmas on number conversion -/

theorem roundToFloat64_exact (m : Nat) (h : m ≤ 2 ^ 53) : roundToFloat64 972 0 m = some m := by
  rcases Nat.lt_or_ge m (2 ^ 53) with hlt | hge
  · show roundToFloat64 (971 + 1) 0 m = some m
    rw [roundToFloat64, if_pos (by simpa using hlt)]
    simp [roundHalfEven, Nat.mod_one]
  · have hm : m = 2 ^ 53 := Nat.le_antisymm h hge
    subst hm
    show roundToFloat64 (971 + 1) 0 (2 ^ 53) = some (2 ^ 53)
    rw [roundToFloat64, if_neg (by norm_num)]
    show roundToFloat64 (970 + 1) (0 + 1) (2 ^ 53) = some (2 ^ 53)
    rw [roundToFloat64, if_pos (by norm_num)]
    simp [roundHalfEven]

theorem two_pow_53_lt (k : Nat) (hk : 53 < k) : 2 ^ 53 < 2 ^ k :=
  Nat.pow_lt_pow_right Nat.one_lt_two hk

theorem lt_float64Limit (m : Nat) (h : m ≤ 2 ^ 53) : m < float64Limit :=
  Nat.lt_of_le_of_lt h (two_pow_53_lt 1024 (by norm_num))

theorem float64OfInt_exact (n : Int) (h : |n| ≤ 2 ^ 53) : float64OfInt n = some (n : ℚ) := by
  have hm : n.natAbs ≤ 2 ^ 53 := by
    have : (n.natAbs : Int) ≤ 2 ^ 53 := by rwa [Int.natCast_natAbs]
    exact_mod_cast this
  unfold float64OfInt
  rw [roundToFloat64_exact n.natAbs hm]
  simp only [if_pos (lt_float64Limit n.natAbs hm), Int.sign_mul_natAbs]

theorem intOfFloat64_intCast (lib : Lib) (n : Int) (hlo : -2 ^ 63 ≤ n) (hhi : n < 2 ^ 63) :
    intOfFloat64 lib (n : ℚ) = n := by
  unfold intOfFloat64
  simp only [Rat.num_intCast, Rat.den_intCast, Nat.cast_one, Int.tdiv_one]
  rw [if_pos ⟨hlo, hhi⟩]

/-! ## Lemmas on `AssertResponse` -/

theorem AssertResponse_of_failure (lib : Lib) (body : String) (m e : List (String × JSON))
    (f : ℚ) (hjson : lib.Unmarshal body = (.object m, none))
    (hsuccess : m.lookup "success" = some (.bool false))
    (herror : m.lookup "error" = some (.object e))
    (hcode : e.lookup "code" = some (.number f)) :
    AssertResponse lib body = .ret (some (.syno (intOfFloat64 lib f))) := by
  simp [AssertResponse, hjson, JSON.asMap, index, hsuccess, JSON.asBool, herror, hcode,
    JSON.asFloat64]

theorem AssertResponse_of_decode_error (lib : Lib) (body : String) (v : JSON) (e : String)
    (hjson : lib.Unmarshal body = (v, some e)) :
    AssertResponse lib body = .ret (some (.decode e)) := by
  simp [AssertResponse, hjson]

theorem AssertResponse_of_not_object (lib : Lib) (body : String) (v : JSON)
    (hjson : lib.Unmarshal body = (v, none)) (hv : ∀ m, v ≠ .object m) :
    AssertResponse lib body = .panic .typeAssertion := by
  cases v with
  | object m => exact absurd rfl (hv m)
  | _ => simp [AssertResponse, hjson, JSON.asMap]

theorem AssertResponse_of_no_success (lib : Lib) (body : String) (m : List (String × JSON))
    (hjson : lib.Unmarshal body = (.object m, none))
    (hs : ∀ b, m.lookup "success" ≠ some (.bool b)) :
    AssertResponse lib body = .panic .typeAssertion := by
  have hb : (index m "success").asBool = none := by
    unfold index
    cases hl : m.lookup "success" with
    | none => rfl
    | some x =>
      cases x with
      | bool b => exact absurd hl (hs b)
      | _ => rfl
  simp [AssertResponse, hjson, JSON.asMap, hb]

theorem float64OfInt_bigCode : float64OfInt 9007199254740993 = some 9007199254740992 := by
  have hr : roundToFloat64 972 0 9007199254740993 = some 9007199254740992 := by
    show roundToFloat64 (971 + 1) 0 9007199254740993 = _
    rw [roundToFloat64, if_neg (by norm_num)]
    show roundToFloat64 (970 + 1) (0 + 1) 9007199254740993 = _
    rw [roundToFloat64, if_pos (by norm_num)]
    simp [roundHalfEven]
  have hs : Int.sign 9007199254740993 = 1 := rfl
  have hn : Int.natAbs 9007199254740993 = 9007199254740993 := rfl
  unfold float64OfInt
  rw [hn, hr]
  simp only [if_pos (lt_float64Limit 9007199254740992 (by norm_num)), hs]
  norm_num

theorem sampleUnmarshal_bigCode :
    sampleUnmarshal bigCodeBody =
      (.object [("success", .bool false),
        ("error", .object [("code", .number 9007199254740992)])], none) := by
  simp [sampleUnmarshal, bigCodeBody, loginBody, failureBody, float64OfInt_bigCode]

/-! ## Lemmas on `Login`, `Logout` and sequences of calls -/

theorem Login_cases (lib : Lib) (w : World) (c : Client) :
    ((Login lib w c).1 = c ∧ ∀ sid, (Login lib w c).2 ≠ .ret (sid, none)) ∨
    ∃ sid, Login lib w c = ({ c with Sid := sid }, .ret (sid, none)) := by
  unfold Login
  split
  · exact Or.inl ⟨rfl, fun sid h => by cases h⟩
  · exact Or.inl ⟨rfl, fun sid h => by cases h⟩
  · split
    · exact Or.inl ⟨rfl, fun sid h => by cases h⟩
    · split
      · exact Or.inl ⟨rfl, fun sid h => by cases h⟩
      · split
        · exact Or.inl ⟨rfl, fun sid h => by cases h⟩
        · exact Or.inr ⟨_, rfl⟩

theorem Login_error (lib : Lib) (w : World) (c : Client) (sid : String) (err : Error)
    (h : (Login lib w c).2 = .ret (sid, some err)) : sid = "" ∧ (Login lib w c).1 = c := by
  unfold Login at h ⊢
  split at h
  · cases h
  · simp only [Outcome.ret.injEq, Prod.mk.injEq] at h
    exact ⟨h.1.symm, rfl⟩
  · split at h
    · cases h
    · split at h
      · cases h
      · split at h
        · cases h
        · cases h

theorem Logout_client (lib : Lib) (w : World) (c : Client) : (Logout lib w c).1 = c := by
  unfold Logout
  split <;> rfl

theorem step_cases (lib : Lib) (w : World) (c : Client) (call : Call) :
    (step lib w c call).1 = c ∨ ∃ sid, (step lib w c call).2 = .login (.ret (sid, none)) := by
  cases call with
  | get path params => exact Or.inl rfl
  | logout => exact Or.inl (Logout_client lib w c)
  | login =>
    rcases Login_cases lib w c with h | ⟨sid, h⟩
    · exact Or.inl h.1
    · exact Or.inr ⟨sid, by simp [step, h]⟩

theorem run_sid_empty (lib : Lib) (calls : List (Call × World)) :
    ∀ c : Client, c.Sid = "" →
      (∀ sid, CallResult.login (.ret (sid, none)) ∉ (run lib c calls).2) →
      (run lib c calls).1.Sid = "" := by
  induction calls with
  | nil => intro c h0 _; exact h0
  | cons cw rest ih =>
    obtain ⟨call, w⟩ := cw
    intro c h0 hno
    have hc : (step lib w c call).1 = c := by
      rcases step_cases lib w c call with h | ⟨sid, h⟩
      · exact h
      · exact absurd (List.mem_cons.mpr (Or.inl h.symm)) (hno sid)
    apply ih
    · rw [hc]
      exact h0
    · intro sid hmem
      exact hno sid (List.mem_cons_of_mem _ hmem)

/-! ## Sample evaluations -/

theorem NewRequest_plain :
    NewRequest sampleLib sampleClient "GET" "webapi/entry.cgi" [] = .ok plainRequest :=
  rfl

theorem NewRequest_spoof :
    NewRequest sampleLib authClient "GET" "webapi/entry.cgi" spoofParams = .ok spoofRequest :=
  rfl

theorem NewRequest_marked :
    NewRequest sampleLib markedClient "GET" "webapi/entry.cgi" spoofParams = .ok markedRequest :=
  rfl

theorem NewRequest_login :
    NewRequest sampleLib authClient "GET" "webapi/auth.cgi" (loginParams authClient) =
      .ok loginRequest :=
  rfl

theorem run_sampleCalls :
    run sampleLib sampleClient sampleCalls =
      (sampleClient,
        [.login (.ret ("", some (.generic "500 Internal Server Error"))),
         .get (.ret ("", some (.decode "invalid character '<' looking for beginning of value"))),
         .logout (.ret (some (.generic "dial tcp: i/o timeout")))]) := by
  rfl

/-! ## C1 -/

/-- C1 fails as stated: the scheme is written into the URL text as it stands, and
`http.NewRequest` parses that text again. For the client with `Sid = "abc"` and the scheme
`http://evil.example/?_sid=stolen#`, the request that `NewRequest` builds has the query
`_sid=stolen`: its `_sid` is not the stored `Sid`, and the parameter `a` is not in it. -/
theorem newRequest_scheme_counterexample :
    NewRequest sampleLib markedClient "GET" "webapi/entry.cgi" spoofParams = .ok markedRequest ∧
    markedClient.Sid = "abc" ∧
    markedRequest.URL.RawQuery = "_sid=stolen" ∧
    markedRequest.URL.Query.lookup "_sid" = some ["stolen"] ∧
    markedRequest.URL.Query.lookup "a" = none :=
  ⟨rfl, rfl, rfl, rfl, rfl⟩

/-- C1, amended: for a client whose scheme has neither `?` nor `#`, when `NewRequest` builds a
request from a parameter mapping, the query parameters of that request (`req.URL.Query()`) are
exactly those of the mapping, one value per key, except that with a non-empty stored `Sid` the
key `_sid` holds the stored `Sid` and nothing else; and every iteration order of the mapping
builds the same request. With an empty `Sid` nothing is added. -/
theorem newRequest_query (lib : Lib) (c : Client) (method path : String)
    (params : List (String × String)) (req : Request)
    (hnd : (params.map Prod.fst).Nodup)
    (hq : '?' ∉ c.Scheme.data) (hf : '#' ∉ c.Scheme.data)
    (hreq : NewRequest lib c method path params = .ok req) :
    (∀ k, req.URL.Query.lookup k =
        if c.Sid ≠ "" ∧ k = "_sid" then some [c.Sid]
        else (params.lookup k).map fun v => [v]) ∧
    (∀ k v, v ∈ (req.URL.Query.lookup k).getD [] ↔
        if c.Sid ≠ "" ∧ k = "_sid" then v = c.Sid else (k, v) ∈ params) ∧
    (∀ params' : List (String × String), params'.Perm params →
        NewRequest lib c method path params' = .ok req) := by
  have hraw := NewRequest_rawQuery lib c method path params req ⟨hq, hf⟩ hreq
  have hlookup : ∀ k, req.URL.Query.lookup k =
      if c.Sid ≠ "" ∧ k = "_sid" then some [c.Sid]
      else (params.lookup k).map fun v => [v] := by
    intro k
    rw [Query_Encode_queryOf req.URL c params hraw k, lookup_queryOf c params hnd]
  refine ⟨hlookup, ?_, ?_⟩
  · intro k v
    rw [hlookup k]
    split
    · simp [eq_comm]
    · cases hl : params.lookup k with
      | none =>
        have : (k, v) ∉ params := fun hm => by
          rw [← lookup_eq_some_iff_mem params hnd, hl] at hm
          cases hm
        simp [this]
      | some v' =>
        simp only [Option.map_some', Option.getD_some, List.mem_singleton]
        rw [← lookup_eq_some_iff_mem params hnd, hl, Option.some.injEq, eq_comm]
  · intro params' hp
    rw [NewRequest_eq] at hreq ⊢
    have hurl : urlOf c path params' = urlOf c path params := by
      unfold urlOf
      rw [queryOf_perm c params params' hnd hp]
    rw [hurl]
    exact hreq

/-- C1 at the client with `Sid = "abc"`, the scheme `https` and a mapping that supplies its own
`_sid`: the request has `_sid` with the one value `abc`, the parameter `a` with `2`, and the
reversed iteration order builds the same request. -/
theorem newRequest_query_witness :
    spoofRequest.URL.Query.lookup "_sid" = some ["abc"] ∧
    spoofRequest.URL.Query.lookup "a" = some ["2"] ∧
    ("spoofed" ∉ (spoofRequest.URL.Query.lookup "_sid").getD []) ∧
    NewRequest sampleLib authClient "GET" "webapi/entry.cgi" spoofParams.reverse =
      .ok spoofRequest :=
  have h := newRequest_query sampleLib authClient "GET" "webapi/entry.cgi" spoofParams
    spoofRequest (by decide) (by decide) (by decide) NewRequest_spoof
  ⟨h.1 "_sid", h.1 "a",
   fun hm => absurd ((h.2.1 "_sid" "spoofed").mp hm) (by decide),
   h.2.2 spoofParams.reverse (List.reverse_perm spoofParams)⟩

/-! ## C2 -/

/-- C2: when the round trip of the request that `Get` built answers a response whose status code
is at least 400, `Do` fails with the Generic Error whose description is the status line and
`Get` returns the empty string with that error. Nothing is read or checked on the way: the
result is the same whatever the body is, also when reading it would fail, and whatever
`json.Unmarshal` would answer. -/
theorem get_http_error_before_body (lib : Lib) (w : World) (c : Client) (path : String)
    (params : List (String × String)) (req : Request) (resp : Response)
    (hreq : NewRequest lib c "GET" path params = .ok req)
    (hrt : w.RoundTrip (timeout c) req = .ok resp) (hst : 400 ≤ resp.StatusCode) :
    Do w c req = .error (.generic resp.Status) ∧
    Get lib w c path params = .ret ("", some (.generic resp.Status)) ∧
    ∀ (unmarshal : String → JSON × Option String) (body : Option String),
      Get { lib with Unmarshal := unmarshal }
        { RoundTrip := fun t r => (w.RoundTrip t r).map fun x => { x with Body := body } }
        c path params = .ret ("", some (.generic resp.Status)) := by
  refine ⟨?_, Get_of_status_error lib w c path params req resp hreq hrt hst, ?_⟩
  · simp [Do_of_response w c req resp hrt, hst]
  · intro unmarshal body
    apply Get_of_status_error _ _ c path params req { resp with Body := body }
    · rw [NewRequest_Unmarshal_irrelevant, hreq]
    · simp [hrt, Except.map]
    · exact hst

/-- C2 at a 500 response whose body cannot be read: `Get` returns the empty string and the Generic
Error with the status line. -/
theorem get_http_error_before_body_witness :
    Get sampleLib (worldOf (.ok (respOf 500 "500 Internal Server Error" none))) sampleClient
      "webapi/entry.cgi" [] = .ret ("", some (.generic "500 Internal Server Error")) :=
  (get_http_error_before_body sampleLib
    (worldOf (.ok (respOf 500 "500 Internal Server Error" none))) sampleClient
    "webapi/entry.cgi" [] plainRequest (respOf 500 "500 Internal Server Error" none)
    rfl rfl (by decide)).2.1

/-! ## C3 -/

/-- C3 fails as stated, in two ways. In the body
`{"success":false,"error":{"code":9007199254740993}}` the code `2^53 + 1` decodes to the float64
9007199254740992, and `AssertResponse` returns a Domain Error with that other code. And the body
`{"success":false,"error":{"code":400},"big":1e400}` is a JSON object with `success` false and
`error.code` 400 on which `json.Unmarshal` reports an error, so that `AssertResponse` returns
that decode error and no Domain Error. -/
theorem assertResponse_big_code_counterexample :
    float64OfInt 9007199254740993 = some 9007199254740992 ∧
    sampleLib.Unmarshal bigCodeBody =
      (.object [("success", .bool false),
        ("error", .object [("code", .number 9007199254740992)])], none) ∧
    AssertResponse sampleLib bigCodeBody = .ret (some (.syno 9007199254740992)) ∧
    AssertResponse sampleLib bigCodeBody ≠ .ret (some (.syno 9007199254740993)) ∧
    AssertResponse sampleLib failureBodyBig = .ret (some (.decode bigNumberError)) ∧
    AssertResponse sampleLib failureBodyBig ≠ .ret (some (.syno 400)) := by
  have h : AssertResponse sampleLib bigCodeBody = .ret (some (.syno 9007199254740992)) := by
    rw [AssertResponse_of_failure sampleLib bigCodeBody _ _ 9007199254740992
      sampleUnmarshal_bigCode rfl rfl rfl]
    have := intOfFloat64_intCast sampleLib 9007199254740992 (by norm_num) (by norm_num)
    simpa using this
  have h' : AssertResponse sampleLib failureBodyBig = .ret (some (.decode bigNumberError)) :=
    AssertResponse_of_decode_error sampleLib failureBodyBig _ _ rfl
  rw [h, h']
  exact ⟨float64OfInt_bigCode, sampleUnmarshal_bigCode, rfl, by decide, rfl, by decide⟩

/-- C3, amended: for every integer `n` with `|n| ≤ 2^53`, when `json.Unmarshal` decodes the
body without error to an object whose `success` member is `false` and whose `error` member is an
object with the `code` member the float64 of `n`, `AssertResponse` returns the Domain Error
with code `n`, and `Get`, on a response with a status below 400 that carries this body, returns
the empty string with that same error. -/
theorem assertResponse_domain_error (lib : Lib) (body : String) (m e : List (String × JSON))
    (n : Int) (f : ℚ)
    (hjson : lib.Unmarshal body = (.object m, none))
    (hsuccess : m.lookup "success" = some (.bool false))
    (herror : m.lookup "error" = some (.object e))
    (hcode : e.lookup "code" = some (.number f))
    (hf : float64OfInt n = some f) (hn : |n| ≤ 2 ^ 53) :
    AssertResponse lib body = .ret (some (.syno n)) ∧
    ∀ (w : World) (c : Client) (path : String) (params : List (String × String))
      (req : Request) (resp : Response),
      NewRequest lib c "GET" path params = .ok req →
      w.RoundTrip (timeout c) req = .ok resp → resp.StatusCode < 400 →
      resp.Body = some body →
      Get lib w c path params = .ret ("", some (.syno n)) := by
  rw [float64OfInt_exact n hn] at hf
  have hfn : f = (n : ℚ) := (Option.some.inj hf).symm
  subst hfn
  have hab := abs_le.mp hn
  have hassert : AssertResponse lib body = .ret (some (.syno n)) := by
    rw [AssertResponse_of_failure lib body m e _ hjson hsuccess herror hcode,
      intOfFloat64_intCast lib n (by omega) (by omega)]
  refine ⟨hassert, fun w c path params req resp hreq hrt hst hbody => ?_⟩
  rw [Get_of_body lib w c path params req resp body hreq hrt hst hbody, hassert]

/-- C3 at the body `{"success":false,"error":{"code":400}}`: the Domain Error has code 400, and
`Get` returns it with no data. -/
theorem assertResponse_domain_error_witness :
    AssertResponse sampleLib failureBody = .ret (some (.syno 400)) ∧
    Get sampleLib (worldOf (.ok (respOf 200 "200 OK" (some failureBody)))) sampleClient
      "webapi/entry.cgi" [] = .ret ("", some (.syno 400)) :=
  ⟨(assertResponse_domain_error sampleLib failureBody
      [("success", .bool false),
        ("error", .object [("code", .number ((float64OfInt 400).getD 0))])]
      [("code", .number ((float64OfInt 400).getD 0))] 400 ((float64OfInt 400).getD 0)
      rfl rfl rfl rfl (by rw [float64OfInt_exact 400 (by norm_num)]; rfl) (by norm_num)).1,
   (assertResponse_domain_error sampleLib failureBody
      [("success", .bool false),
        ("error", .object [("code", .number ((float64OfInt 400).getD 0))])]
      [("code", .number ((float64OfInt 400).getD 0))] 400 ((float64OfInt 400).getD 0)
      rfl rfl rfl rfl (by rw [float64OfInt_exact 400 (by norm_num)]; rfl) (by norm_num)).2
      (worldOf (.ok (respOf 200 "200 OK" (some failureBody)))) sampleClient "webapi/entry.cgi" []
      plainRequest (respOf 200 "200 OK" (some failureBody)) rfl rfl (by decide) rfl⟩

/-! ## C4 -/

/-- C4 fails as stated: the body `{"success":true,"data":{"sid":"ABC123"},"big":1e400}` is a
JSON object with `success` true, but `json.Unmarshal` reports the number that does not fit a
float64, `AssertResponse` returns that error before it reads `success`, and `Get` returns the
empty string with it instead of the body. -/
theorem get_success_out_of_range_counterexample :
    sampleLib.Unmarshal loginBodyBig =
      (.object [("success", .bool true), ("data", .object [("sid", .string "ABC123")]),
        ("big", .null)], some bigNumberError) ∧
    AssertResponse sampleLib loginBodyBig = .ret (some (.decode bigNumberError)) ∧
    Get sampleLib (worldOf (.ok (respOf 200 "200 OK" (some loginBodyBig)))) sampleClient
      "webapi/entry.cgi" [] = .ret ("", some (.decode bigNumberError)) ∧
    Get sampleLib (worldOf (.ok (respOf 200 "200 OK" (some loginBodyBig)))) sampleClient
      "webapi/entry.cgi" [] ≠ .ret (loginBodyBig, none) := by
  have hget : Get sampleLib (worldOf (.ok (respOf 200 "200 OK" (some loginBodyBig))))
      sampleClient "webapi/entry.cgi" [] = .ret ("", some (.decode bigNumberError)) := rfl
  rw [hget]
  exact ⟨rfl, rfl, rfl, by decide⟩

/-- C4, amended: when `json.Unmarshal` decodes the body without error to an object whose
`success` member is `true`, `AssertResponse` returns no error, and `Get`, on a response with a
status below 400 that carries this body, returns the whole raw body, unchanged, with a nil
error. -/
theorem get_success_returns_raw_body (lib : Lib) (body : String) (m : List (String × JSON))
    (hjson : lib.Unmarshal body = (.object m, none))
    (hsuccess : m.lookup "success" = some (.bool true)) :
    AssertResponse lib body = .ret none ∧
    ∀ (w : World) (c : Client) (path : String) (params : List (String × String))
      (req : Request) (resp : Response),
      NewRequest lib c "GET" path params = .ok req →
      w.RoundTrip (timeout c) req = .ok resp → resp.StatusCode < 400 →
      resp.Body = some body →
      Get lib w c path params = .ret (body, none) := by
  have hassert : AssertResponse lib body = .ret none := by
    simp [AssertResponse, hjson, JSON.asMap, index, hsuccess, JSON.asBool]
  refine ⟨hassert, fun w c path params req resp hreq hrt hst hbody => ?_⟩
  rw [Get_of_body lib w c path params req resp body hreq hrt hst hbody, hassert]

/-- C4 at the body `{"success":true,"data":{"sid":"ABC123"}}`: `Get` returns that whole body. -/
theorem get_success_returns_raw_body_witness :
    AssertResponse sampleLib loginBody = .ret none ∧
    Get sampleLib (worldOf (.ok (respOf 200 "200 OK" (some loginBody)))) sampleClient
      "webapi/entry.cgi" [] = .ret (loginBody, none) :=
  ⟨(get_success_returns_raw_body sampleLib loginBody
      [("success", .bool true), ("data", .object [("sid", .string "ABC123")])] rfl rfl).1,
   (get_success_returns_raw_body sampleLib loginBody
      [("success", .bool true), ("data", .object [("sid", .string "ABC123")])] rfl rfl).2
      (worldOf (.ok (respOf 200 "200 OK" (some loginBody)))) sampleClient "webapi/entry.cgi" []
      plainRequest (respOf 200 "200 OK" (some loginBody)) rfl rfl (by decide) rfl⟩

/-! ## C5 -/

/-- C5 fails as stated: the body `[]` is valid JSON whose top-level value is not an object, and on
it `AssertResponse` panics instead of returning an error, and so does `Get`. -/
theorem assertResponse_shape_mismatch_counterexample :
    sampleLib.Unmarshal "[]" = (.array [], none) ∧
    AssertResponse sampleLib "[]" = .panic .typeAssertion ∧
    (¬ ∃ err, AssertResponse sampleLib "[]" = .ret (some err)) ∧
    Get sampleLib (worldOf (.ok (respOf 200 "200 OK" (some "[]")))) sampleClient
      "webapi/entry.cgi" [] = .panic .typeAssertion := by
  have h : AssertResponse sampleLib "[]" = .panic .typeAssertion := rfl
  refine ⟨rfl, h, ?_, rfl⟩
  rintro ⟨err, herr⟩
  rw [h] at herr
  cases herr

/-- C5, amended: when `json.Unmarshal` reports an error on the body, as it does on every body
that is not valid JSON, `AssertResponse` returns that decode error, which is not a Domain Error,
without panicking, and `Get` returns the empty string with it. When `json.Unmarshal` decodes the
body without error and the decoded value is not an object, or is an object with no boolean
`success` member, the type assertion fails: `AssertResponse` and `Get` panic, so the body is
taken neither as a success nor as a domain failure. `Get` is taken on a response with a status
below 400 that carries the body. -/
theorem assertResponse_decode_error_or_panic (lib : Lib) (body : String) (v : JSON)
    (err : Option String) (hjson : lib.Unmarshal body = (v, err)) :
    (∀ e, err = some e →
      AssertResponse lib body = .ret (some (.decode e)) ∧
      (∀ n, Error.decode e ≠ Error.syno n) ∧
      ∀ (w : World) (c : Client) (path : String) (params : List (String × String))
        (req : Request) (resp : Response),
        NewRequest lib c "GET" path params = .ok req →
        w.RoundTrip (timeout c) req = .ok resp → resp.StatusCode < 400 →
        resp.Body = some body →
        Get lib w c path params = .ret ("", some (.decode e))) ∧
    (err = none →
      ((∀ m, v ≠ .object m) ∨
        ∃ m, v = .object m ∧ ∀ b, m.lookup "success" ≠ some (.bool b)) →
      AssertResponse lib body = .panic .typeAssertion ∧
      ∀ (w : World) (c : Client) (path : String) (params : List (String × String))
        (req : Request) (resp : Response),
        NewRequest lib c "GET" path params = .ok req →
        w.RoundTrip (timeout c) req = .ok resp → resp.StatusCode < 400 →
        resp.Body = some body →
        Get lib w c path params = .panic .typeAssertion) := by
  constructor
  · intro e he
    subst he
    have hassert := AssertResponse_of_decode_error lib body v e hjson
    refine ⟨hassert, ?_, fun w c path params req resp hreq hrt hst hbody => ?_⟩
    · intro n h
      cases h
    · rw [Get_of_body lib w c path params req resp body hreq hrt hst hbody, hassert]
  · intro he hshape
    subst he
    have hassert : AssertResponse lib body = .panic .typeAssertion := by
      rcases hshape with hno | ⟨m, rfl, hs⟩
      · exact AssertResponse_of_not_object lib body v hjson hno
      · exact AssertResponse_of_no_success lib body m hjson hs
    refine ⟨hassert, fun w c path params req resp hreq hrt hst hbody => ?_⟩
    rw [Get_of_body lib w c path params req resp body hreq hrt hst hbody, hassert]

/-- C5 at the body `<html>` with status 200: `AssertResponse` returns the decode error and `Get`
returns the empty string with it. -/
theorem assertResponse_decode_error_or_panic_witness :
    AssertResponse sampleLib "<html>" =
      .ret (some (.decode "invalid character '<' looking for beginning of value")) ∧
    Get sampleLib (worldOf (.ok (respOf 200 "200 OK" (some "<html>")))) sampleClient
      "webapi/entry.cgi" [] =
      .ret ("", some (.decode "invalid character '<' looking for beginning of value")) :=
  ⟨((assertResponse_decode_error_or_panic sampleLib "<html>" .null
      (some "invalid character '<' looking for beginning of value") rfl).1 _ rfl).1,
   ((assertResponse_decode_error_or_panic sampleLib "<html>" .null
      (some "invalid character '<' looking for beginning of value") rfl).1 _ rfl).2.2
      (worldOf (.ok (respOf 200 "200 OK" (some "<html>")))) sampleClient "webapi/entry.cgi" []
      plainRequest (respOf 200 "200 OK" (some "<html>")) rfl rfl (by decide) rfl⟩

/-! ## C6 -/

/-- C6 fails as stated: the body `{"success":true,"data":{"sid":"ABC123"},"big":1e400}` is a
JSON object with `success` true and `data.sid` the string `ABC123`, but `json.Unmarshal` reports
the number that does not fit a float64; `Get` returns that error, and `Login` returns the empty
string with it and leaves the stored `Sid` at `abc`. -/
theorem login_out_of_range_counterexample :
    Login sampleLib (worldOf (.ok (respOf 200 "200 OK" (some loginBodyBig)))) authClient =
      (authClient, .ret ("", some (.decode bigNumberError))) ∧
    (Login sampleLib (worldOf (.ok (respOf 200 "200 OK" (some loginBodyBig)))) authClient).1.Sid =
      "abc" ∧
    (Login sampleLib (worldOf (.ok (respOf 200 "200 OK" (some loginBodyBig)))) authClient).1.Sid ≠
      "ABC123" := by
  have hlogin : Login sampleLib (worldOf (.ok (respOf 200 "200 OK" (some loginBodyBig))))
      authClient = (authClient, .ret ("", some (.decode bigNumberError))) := rfl
  rw [hlogin]
  exact ⟨rfl, rfl, by decide⟩

/-- C6, amended: whatever the stored `Sid` was, when the response to the login call has a status
below 400 and `json.Unmarshal` decodes its body without error to an object with `success` true
and `data` an object whose `sid` is the string `s`, `Login` returns `s` with a nil error and the
client afterwards is the client before with `Sid` set to `s`. -/
theorem login_success_stores_sid (lib : Lib) (w : World) (c : Client) (req : Request)
    (resp : Response) (body : String) (m d : List (String × JSON)) (s : String)
    (hreq : NewRequest lib c "GET" "webapi/auth.cgi" (loginParams c) = .ok req)
    (hrt : w.RoundTrip (timeout c) req = .ok resp) (hst : resp.StatusCode < 400)
    (hbody : resp.Body = some body)
    (hjson : lib.Unmarshal body = (.object m, none))
    (hsuccess : m.lookup "success" = some (.bool true))
    (hdata : m.lookup "data" = some (.object d))
    (hsid : d.lookup "sid" = some (.string s)) :
    Login lib w c = ({ c with Sid := s }, .ret (s, none)) ∧
    (Login lib w c).1.Sid = s := by
  have hassert : AssertResponse lib body = .ret none := by
    simp [AssertResponse, hjson, JSON.asMap, index, hsuccess, JSON.asBool]
  have hget : Get lib w c "webapi/auth.cgi" (loginParams c) = .ret (body, none) := by
    rw [Get_of_body lib w c _ _ req resp body hreq hrt hst hbody, hassert]
  have hlogin : Login lib w c = ({ c with Sid := s }, .ret (s, none)) := by
    simp [Login, hget, GetData, hjson, JSON.asMap, index, hdata, hsid, JSON.asString]
  exact ⟨hlogin, by rw [hlogin]⟩

/-- C6 at the body `{"success":true,"data":{"sid":"ABC123"}}` and a client that already holds the
session id `abc`: `Login` returns `ABC123` and stores it. -/
theorem login_success_stores_sid_witness :
    Login sampleLib (worldOf (.ok (respOf 200 "200 OK" (some loginBody)))) authClient =
      ({ authClient with Sid := "ABC123" }, .ret ("ABC123", none)) ∧
    (Login sampleLib (worldOf (.ok (respOf 200 "200 OK" (some loginBody)))) authClient).1.Sid =
      "ABC123" :=
  login_success_stores_sid sampleLib
    (worldOf (.ok (respOf 200 "200 OK" (some loginBody)))) authClient loginRequest
    (respOf 200 "200 OK" (some loginBody)) loginBody
    [("success", .bool true), ("data", .object [("sid", .string "ABC123")])]
    [("sid", .string "ABC123")] "ABC123"
    NewRequest_login rfl (by decide) rfl rfl rfl rfl rfl

/-! ## C7 -/

/-- C7: a client whose `Sid` is empty still has an empty `Sid` after every sequence of `Get`,
`Login` and `Logout` calls in which no `Login` returned a nil error; and a `Login` that returns
an error returns the empty string as sid and leaves the client as it was. -/
theorem sid_empty_until_login (lib : Lib) (c : Client) (calls : List (Call × World))
    (h0 : c.Sid = "")
    (hno : ∀ sid, CallResult.login (.ret (sid, none)) ∉ (run lib c calls).2) :
    (run lib c calls).1.Sid = "" ∧
    ∀ (w : World) (c₀ : Client) (sid : String) (err : Error),
      (Login lib w c₀).2 = .ret (sid, some err) → sid = "" ∧ (Login lib w c₀).1 = c₀ :=
  ⟨run_sid_empty lib calls c h0 hno, fun w c₀ sid err h => Login_error lib w c₀ sid err h⟩

/-- C7 at a session of a refused login, a `Get` and a logout: `Sid` is still empty at the end. -/
theorem sid_empty_until_login_witness : (run sampleLib sampleClient sampleCalls).1.Sid = "" :=
  (sid_empty_until_login sampleLib sampleClient sampleCalls rfl
    (by intro sid; rw [run_sampleCalls]; simp)).1

/-! ## C8 -/

/-- C8 fails as stated in its last consequence: for the authenticated client whose scheme is
`http://evil.example/?_sid=stolen#`, `Logout` leaves the client as it was, and the next request
it builds has `_sid` with the value `stolen`, not the stored `Sid`. -/
theorem logout_scheme_counterexample :
    (Logout sampleLib (worldOf (.error "dial tcp: i/o timeout")) markedClient).1 = markedClient ∧
    markedClient.Sid = "abc" ∧
    NewRequest sampleLib (Logout sampleLib (worldOf (.error "dial tcp: i/o timeout"))
        markedClient).1 "GET" "webapi/entry.cgi" spoofParams = .ok markedRequest ∧
    markedRequest.URL.Query.lookup "_sid" = some ["stolen"] ∧
    markedRequest.URL.Query.lookup "_sid" ≠ some ["abc"] := by
  have hl : (Logout sampleLib (worldOf (.error "dial tcp: i/o timeout")) markedClient).1 =
      markedClient := Logout_client _ _ _
  rw [hl]
  exact ⟨rfl, rfl, rfl, rfl, by decide⟩

/-- C8, amended: `Logout` leaves every field of the client as it was, whatever the call gave:
the client after it is the client before it. It returns the error of its `Get`, nil when that
`Get` returned none, and a panic of that `Get` is its panic. The client therefore builds after
`Logout` what it built before: with a non-empty `Sid` it is still authenticated, the URL that
`NewRequest` assembles still has `_sid` with the old `Sid` and only that, and so has the request
when the scheme has neither `?` nor `#`. -/
theorem logout_keeps_client (lib : Lib) (w : World) (c : Client) :
    (Logout lib w c).1 = c ∧
    (∀ r err, Get lib w c "webapi/auth.cgi" (logoutParams c) = .ret (r, err) →
      (Logout lib w c).2 = .ret err) ∧
    (∀ p, Get lib w c "webapi/auth.cgi" (logoutParams c) = .panic p →
      (Logout lib w c).2 = .panic p) ∧
    (∀ (method path : String) (params : List (String × String)),
      NewRequest lib (Logout lib w c).1 method path params =
        NewRequest lib c method path params) ∧
    (c.Sid ≠ "" → (Logout lib w c).1.Sid ≠ "" ∧
      ∀ (path : String) (params : List (String × String)),
        (urlOf (Logout lib w c).1 path params).Query.lookup "_sid" = some [c.Sid]) ∧
    (∀ (method path : String) (params : List (String × String)) (req : Request),
      c.Sid ≠ "" → '?' ∉ c.Scheme.data → '#' ∉ c.Scheme.data →
      NewRequest lib (Logout lib w c).1 method path params = .ok req →
      req.URL.Query.lookup "_sid" = some [c.Sid]) := by
  refine ⟨Logout_client lib w c, ?_, ?_, ?_, ?_, ?_⟩
  · intro r err h
    cases err <;> simp [Logout, h]
  · intro p h
    simp [Logout, h]
  · intro method path params
    rw [Logout_client]
  · intro hs
    rw [Logout_client]
    refine ⟨hs, fun path params => ?_⟩
    rw [Query_Encode_queryOf (urlOf c path params) c params rfl, lookup_queryOf_sid c params hs]
  · intro method path params req hs hq hf hreq
    rw [Logout_client] at hreq
    rw [Query_Encode_queryOf req.URL c params
      (NewRequest_rawQuery lib c method path params req ⟨hq, hf⟩ hreq),
      lookup_queryOf_sid c params hs]

/-- C8 at a client with `Sid = "abc"` whose logout does not reach the server: the client is
unchanged and the next request still carries `_sid` with the one value `abc`. -/
theorem logout_keeps_client_witness :
    (Logout sampleLib (worldOf (.error "dial tcp: i/o timeout")) authClient).1 = authClient ∧
    spoofRequest.URL.Query.lookup "_sid" = some ["abc"] :=
  ⟨(logout_keeps_client sampleLib (worldOf (.error "dial tcp: i/o timeout")) authClient).1,
   (logout_keeps_client sampleLib (worldOf (.error "dial tcp: i/o timeout")) authClient).2.2.2.2.2
      "GET" "webapi/entry.cgi" spoofParams spoofRequest (by decide) (by decide) (by decide)
      (by rw [Logout_client]; exact NewRequest_spoof)⟩

/-! ## C9 -/

/-- C9 fails as stated: a response with status 304 is outside 200..299, yet `Do` returns it with
no error. -/
theorem do_status_304_counterexample :
    ¬ (200 ≤ (304 : Int) ∧ (304 : Int) ≤ 299) ∧
    Do (worldOf (.ok (respOf 304 "304 Not Modified" (some "")))) sampleClient plainRequest =
      .ok (respOf 304 "304 Not Modified" (some "")) := by
  constructor
  · decide
  · rfl

/-- C9, amended: the threshold of `Do` is 400. For every response whose status code is at least
400, `Do` fails with a Generic Error that carries the status line as its description (and no
code); for every response whose status code is below 400, the codes 200..299 among them, `Do`
returns the response with no error, and `Get` hands its raw body to `AssertResponse`. -/
theorem do_status_threshold (lib : Lib) (w : World) (c : Client) (path : String)
    (params : List (String × String)) (req : Request) (resp : Response)
    (hreq : NewRequest lib c "GET" path params = .ok req)
    (hrt : w.RoundTrip (timeout c) req = .ok resp) :
    (400 ≤ resp.StatusCode → Do w c req = .error (.generic resp.Status)) ∧
    (resp.StatusCode < 400 → Do w c req = .ok resp) ∧
    (200 ≤ resp.StatusCode → resp.StatusCode ≤ 299 → Do w c req = .ok resp) ∧
    (resp.StatusCode < 400 → ∀ body, resp.Body = some body →
      Get lib w c path params =
        match AssertResponse lib body with
        | .panic p => .panic p
        | .ret (some err) => .ret ("", some err)
        | .ret none => .ret (body, none)) := by
  rw [Do_of_response w c req resp hrt]
  refine ⟨fun h => by simp [h], fun h => by simp [not_le.mpr h], fun _ h => ?_,
    fun h body hb => ?_⟩
  · have : ¬ (400 ≤ resp.StatusCode) := by omega
    simp [this]
  · exact Get_of_body lib w c path params req resp body hreq hrt h hb

/-- C9 at a 200 response: `Do` returns it with no error. -/
theorem do_status_threshold_witness :
    Do (worldOf (.ok (respOf 200 "200 OK" (some loginBody)))) sampleClient plainRequest =
      .ok (respOf 200 "200 OK" (some loginBody)) :=
  (do_status_threshold sampleLib (worldOf (.ok (respOf 200 "200 OK" (some loginBody))))
    sampleClient "webapi/entry.cgi" [] plainRequest (respOf 200 "200 OK" (some loginBody))
    rfl rfl).2.2.1 (by decide) (by decide)

/-! ## C10 -/

/-- C10 fails as stated: the positive `Timeout` count 9223372037 gives a product that does not fit
64 bits; the timeout that `Do` computes is negative and is not 9223372037 seconds. -/
theorem timeout_overflow_counterexample :
    (0 : Int) < 9223372037 ∧
    timeout { sampleClient with Timeout := 9223372037 } = -9223372036709551616 ∧
    timeout { sampleClient with Timeout := 9223372037 } ≠ 9223372037 * 1000000000 ∧
    ¬ 0 < timeout { sampleClient with Timeout := 9223372037 } := by
  have h : timeout { sampleClient with Timeout := 9223372037 } = -9223372036709551616 := by
    simp [timeout, wrapInt64, Second, sampleClient]
  rw [h]
  decide

/-- C10, amended: for every positive `Timeout` count `n` of at most 9223372036, the largest count
whose product with `time.Second` fits 64 bits, the timeout is `n * 10^9` nanoseconds, that is
`n` seconds, it is positive and below `2^63`, and it is the timeout under which `Do` runs the
round trip. -/
theorem timeout_scaled (c : Client) (hpos : 0 < c.Timeout) (hmax : c.Timeout ≤ 9223372036) :
    timeout c = c.Timeout * 1000000000 ∧ 0 < timeout c ∧ timeout c < 2 ^ 63 ∧
    ∀ (w : World) (req : Request),
      Do w c req = Do { RoundTrip := fun _ r => w.RoundTrip (c.Timeout * 1000000000) r } c req := by
  have h : timeout c = c.Timeout * 1000000000 := by
    simp only [timeout, wrapInt64, Second]
    omega
  refine ⟨h, by omega, by omega, fun w req => ?_⟩
  simp [Do, h]

/-- C10 at the count 30: the timeout is 30 seconds. -/
theorem timeout_scaled_witness :
    timeout sampleClient = 30 * 1000000000 ∧ 0 < timeout sampleClient :=
  ⟨(timeout_scaled sampleClient (by decide) (by decide)).1,
   (timeout_scaled sampleClient (by decide) (by decide)).2.1⟩

end Synoclient
